import Mathlib

set_option maxRecDepth 1000000

/-!
# Verification of the Monitis SDK core (`monitis/api.py`)

A shallow embedding of the request-signing, parameter-normalization,
credential-resolution and transport glue of `src/monitis/api.py`, together
with theorems settling the frozen claims about it.

Python 2 byte strings (`str`) are modelled as Lean `String`s whose characters
all have code points below 256; `strBytes`/`stringOfBytes` convert between
such strings and their byte lists.  Machine words are `Nat` with explicit
`% 2^32` where overflow matters.
-/

/-! ## Byte-level primitives: SHA-1, HMAC-SHA1, base64

These model Python's `hashlib.sha1`, `hmac.new(key, msg, sha1)` and
`base64.b64encode`, which `monitis/api.py` imports and composes in its two
`checksum` implementations. -/

/-- `2^32`, the word modulus of SHA-1. -/
def u32 : Nat := 4294967296

/-- Left rotation of a 32-bit word (input assumed `< 2^32`). -/
def rotl (n x : Nat) : Nat := ((x <<< n) ||| (x >>> (32 - n))) % u32

/-- Big-endian bytes of a 32-bit word. -/
def bytesOfWord (w : Nat) : List Nat :=
  [w / 16777216 % 256, w / 65536 % 256, w / 256 % 256, w % 256]

/-- Group a byte list into big-endian 32-bit words (trailing partial group
dropped; inputs are always a multiple of 4 bytes here). -/
def chunkWords : List Nat → List Nat
  | a :: b :: c :: d :: rest => (((a * 256 + b) * 256 + c) * 256 + d) :: chunkWords rest
  | _ => []

/-- Extend the 16 message words to 80, keeping the list reversed (most recent
word first), so `w[i-3]` is entry `2`, `w[i-8]` entry `7`, `w[i-14]` entry
`13`, `w[i-16]` entry `15`. -/
def sha1ExtendAux : Nat → List Nat → List Nat
  | 0, ws => ws
  | n + 1, ws =>
      let next := rotl 1 ((ws.getD 2 0) ^^^ (ws.getD 7 0) ^^^ (ws.getD 13 0) ^^^ (ws.getD 15 0))
      sha1ExtendAux n (next :: ws)

/-- The 80-word message schedule of one 64-byte block. -/
def sha1Schedule (block : List Nat) : List Nat :=
  (sha1ExtendAux 64 (chunkWords block).reverse).reverse

/-- SHA-1 round function. -/
def sha1F (i b c d : Nat) : Nat :=
  if i < 20 then (b &&& c) ||| ((b ^^^ 4294967295) &&& d)
  else if i < 40 then b ^^^ c ^^^ d
  else if i < 60 then (b &&& c) ||| (b &&& d) ||| (c &&& d)
  else b ^^^ c ^^^ d

/-- SHA-1 round constants. -/
def sha1K (i : Nat) : Nat :=
  if i < 20 then 0x5A827999
  else if i < 40 then 0x6ED9EBA1
  else if i < 60 then 0x8F1BBCDC
  else 0xCA62C1D6

/-- The SHA-1 working state: five 32-bit words. -/
abbrev Sha1St := Nat × Nat × Nat × Nat × Nat

/-- Process one 64-byte block. -/
def sha1Compress (h : Sha1St) (block : List Nat) : Sha1St :=
  let ws := sha1Schedule block
  let step := fun (st : Sha1St) (iw : Nat × Nat) =>
    let (a, b, c, d, e) := st
    let temp := (rotl 5 a + sha1F iw.1 b c d + e + sha1K iw.1 + iw.2) % u32
    (temp, a, rotl 30 b, c, d)
  let (a, b, c, d, e) := ws.enum.foldl step h
  let (h0, h1, h2, h3, h4) := h
  ((h0 + a) % u32, (h1 + b) % u32, (h2 + c) % u32, (h3 + d) % u32, (h4 + e) % u32)

/-- The 8-byte big-endian encoding of the 64-bit message bit length. -/
def bytesOfLen64 (n : Nat) : List Nat :=
  (List.range 8).map (fun i => n / 2 ^ (8 * (7 - i)) % 256)

/-- Merkle–Damgård padding: `0x80`, zeros to 56 mod 64, 64-bit bit length. -/
def sha1Pad (msg : List Nat) : List Nat :=
  msg ++ 128 :: List.replicate ((119 - msg.length % 64) % 64) 0
      ++ bytesOfLen64 (msg.length * 8)

/-- Split a byte list into 64-byte blocks (fuelled by the length, which
suffices since every step consumes at least one element). -/
def chunks64Aux : Nat → List Nat → List (List Nat)
  | 0, _ => []
  | _, [] => []
  | fuel + 1, l => l.take 64 :: chunks64Aux fuel (l.drop 64)

/-- Split a byte list into 64-byte blocks. -/
def chunks64 (l : List Nat) : List (List Nat) := chunks64Aux l.length l

/-- SHA-1 of a byte list, as a 20-byte digest.  Models `hashlib.sha1`. -/
def sha1 (msg : List Nat) : List Nat :=
  let (h0, h1, h2, h3, h4) :=
    (chunks64 (sha1Pad msg)).foldl sha1Compress
      (0x67452301, 0xEFCDAB89, 0x98BADCFE, 0x10325476, 0xC3D2E1F0)
  bytesOfWord h0 ++ bytesOfWord h1 ++ bytesOfWord h2 ++ bytesOfWord h3 ++ bytesOfWord h4

/-- HMAC-SHA1 (RFC 2104), as implemented by Python's `hmac.new` with the
`sha1` digest: keys longer than the 64-byte block size are first hashed. -/
def hmacSha1 (key msg : List Nat) : List Nat :=
  let k1 := if 64 < key.length then sha1 key else key
  let k2 := k1 ++ List.replicate (64 - k1.length) 0
  let ipad := k2.map (fun b => b ^^^ 54)
  let opad := k2.map (fun b => b ^^^ 92)
  sha1 (opad ++ sha1 (ipad ++ msg))

/-- The base64 alphabet. -/
def b64Alphabet : List Char :=
  "ABCDEFGHIJKLMNOPQRSTUVWXYZabcdefghijklmnopqrstuvwxyz0123456789+/".data

/-- The base64 character of a 6-bit value. -/
def b64Char (n : Nat) : Char := b64Alphabet.getD n 'A'

/-- Base64-encode a byte list, three bytes at a time, `=`-padded. -/
def b64Groups : List Nat → List Char
  | a :: b :: c :: rest =>
      b64Char (a / 4) :: b64Char (a % 4 * 16 + b / 16) ::
        b64Char (b % 16 * 4 + c / 64) :: b64Char (c % 64) :: b64Groups rest
  | [a, b] => [b64Char (a / 4), b64Char (a % 4 * 16 + b / 16), b64Char (b % 16 * 4), '=']
  | [a] => [b64Char (a / 4), b64Char (a % 4 * 16), '=', '=']
  | [] => []

/-- Models Python's `base64.b64encode` on a byte list, returning a string. -/
def b64encode (bs : List Nat) : String := String.mk (b64Groups bs)

/-- The bytes of a Python 2 `str` (modelled as a Lean string with code points
below 256). -/
def strBytes (s : String) : List Nat := s.data.map Char.toNat

/-- The Python 2 `str` holding the given bytes (all below 256). -/
def stringOfBytes (bs : List Nat) : String := String.mk (bs.map Char.ofNat)

/-! ## The Python-level model of `monitis/api.py`

`MonitisError` is the library's exception type; raising is modelled by
`Except MonitisError` results.  `MonitisCls` is the mutable class-level
state of `class Monitis`; `Env` is `os.environ`. -/

/-- `MonitisError(msg)`. -/
structure MonitisError where
  msg : String
deriving DecidableEq, Repr

/-- The class-level attributes of `class Monitis`. -/
structure MonitisCls where
  debug : Bool := false
  sandbox : Bool := false
  apikey : Option String := none
  secretkey : Option String := none
  default_url : String := "http://monitis.com/api"
  sandbox_url : String := "http://sandbox.monitis.com/api"
deriving DecidableEq, Repr

/-- `os.environ`: a partial map from variable names to values. -/
abbrev Env := String → Option String

/-- `environ_key(name)`: the variable's value, `None` if unset. -/
def environ_key (name : String) (env : Env) : Option String := env name

/-- Python truthiness of a string-or-`None`: `None` and `''` are falsy. -/
def truthy : Option String → Bool
  | none => false
  | some s => !(s == "")

/-- `a or b` where `a` is a string-or-`None` and `b` an expression that may
raise: `b` is evaluated only when `a` is falsy (short-circuit). -/
def pyOrE (a : Option String) (b : Except MonitisError String) :
    Except MonitisError String :=
  match a with
  | some s => if s = "" then b else .ok s
  | none => b

/-- `a or b` for plain strings-or-`None`. -/
def pyOrS (a : Option String) (b : String) : String :=
  match a with
  | some s => if s = "" then b else s
  | none => b

/-- A Python `dict` with string keys and values, as an association list.
Real dicts have pairwise-distinct keys (a hypothesis of the theorems that
need it) and arbitrary iteration order; results are observed through
`dlookup`, which makes the representation order irrelevant. -/
abbrev PyDict := List (String × String)

/-- `d[k]` / `d.get(k)`. -/
def dlookup (k : String) (d : PyDict) : Option String :=
  (d.find? (fun p => p.1 == k)).map (·.2)

/-- Key removal (the effect of `d.pop(k, ...)` / `del d[k]` on the dict). -/
def derase (k : String) (d : PyDict) : PyDict := d.filter (fun p => p.1 != k)

/-- `d[k] = v`: replace any existing entry for `k`. -/
def dinsert (k v : String) (d : PyDict) : PyDict := derase k d ++ [(k, v)]

/-- `d.update(other)`: assign every entry of `other` into `d`. -/
def dupdate (d other : PyDict) : PyDict :=
  other.foldl (fun acc p => dinsert p.1 p.2 acc) d

/-- `_api_url()`: sandbox or production base URL by the class flag. -/
def api_url (cls : MonitisCls) : String :=
  if cls.sandbox then cls.sandbox_url else cls.default_url

/-- Python's `str.islower` on a single character, restricted to the ASCII
range (`a`–`z`), which is where all of the claims live. -/
def pyIsLower (c : Char) : Bool := 97 ≤ c.toNat && c.toNat ≤ 122

/-- Python's `str.isupper` on a single character, ASCII range (`A`–`Z`). -/
def pyIsUpper (c : Char) : Bool := 65 ≤ c.toNat && c.toNat ≤ 90

/-- Python's `str.lower` on a single character, ASCII range. -/
def pyLower (c : Char) : Char :=
  if pyIsUpper c then Char.ofNat (c.toNat + 32) else c

/-- The loop of `camel2under`: emit each character of the word, inserting
`'_'` after every character that is a lowercase letter immediately followed
by an uppercase letter; the final character is emitted unconditionally
(`result_list.append(word[-1])`). -/
def c2uLoop : List Char → List Char
  | [] => []
  | [c] => [c]
  | c :: d :: rest =>
      if pyIsLower c && pyIsUpper d then c :: '_' :: c2uLoop (d :: rest)
      else c :: c2uLoop (d :: rest)

/-- `camel2under(word)`: the loop above, then `.lower()` on the joined
string.  On the empty string the Python code raises `IndexError`
(`word[-1]`); the claims only concern non-empty input, so this total model
returns `""` there. -/
def camel2under (word : String) : String :=
  String.mk ((c2uLoop word.data).map pyLower)

/-- The `required` loop of `validate_kwargs`: for each `(lc, cc)` pair, pop
the underscore spelling `lc`, else pop the provider spelling `cc`, else fail
with `lc + " is required"`; store the value under `cc`. -/
def reqLoop : List (String × String) → PyDict → PyDict →
    Except MonitisError (PyDict × PyDict)
  | [], kw, acc => .ok (acc, kw)
  | (lc, cc) :: rest, kw, acc =>
      match dlookup lc kw with
      | some v => reqLoop rest (derase lc kw) (dinsert cc v acc)
      | none =>
          match dlookup cc kw with
          | some v => reqLoop rest (derase cc kw) (dinsert cc v acc)
          | none => .error ⟨lc ++ " is required"⟩

/-- The `optional` loop of `validate_kwargs`: same popping, no error. -/
def optLoop : List (String × String) → PyDict → PyDict → PyDict × PyDict
  | [], kw, acc => (acc, kw)
  | (lc, cc) :: rest, kw, acc =>
      match dlookup lc kw with
      | some v => optLoop rest (derase lc kw) (dinsert cc v acc)
      | none =>
          match dlookup cc kw with
          | some v => optLoop rest (derase cc kw) (dinsert cc v acc)
          | none => optLoop rest kw acc

/-- `validate_kwargs(required, optional, **kwargs)` with list-form name
specifications (the dict form of the source is not exercised by the
claims).  Python builds `temp_required`/`temp_optional` dicts and iterates
them in arbitrary order; the claims' theorems assume the names involved are
pairwise distinct, which makes the result independent of that order, and
this model iterates in list order.  The leftover `kwargs` are merged in by
`result_kwargs.update(kwargs)` at the end. -/
def validate_kwargs (required optional : List String) (kwargs : PyDict) :
    Except MonitisError PyDict :=
  let reqPairs := required.map (fun w => (camel2under w, w))
  let optPairs := optional.map (fun w => (camel2under w, w))
  match reqLoop reqPairs kwargs [] with
  | .error e => .error e
  | .ok (acc, kw) =>
      let (acc2, kw2) := optLoop optPairs kw acc
      .ok (dupdate acc2 kw2)

/-- Module-level `resolve_apikey()`: the class attribute if it `is not
None`, else the mode-selected environment variable, else raise. -/
def resolve_apikey (cls : MonitisCls) (env : Env) : Except MonitisError String :=
  match cls.apikey with
  | some k => .ok k
  | none =>
      match environ_key (if cls.sandbox then "MONITIS_SANDBOX_APIKEY" else "MONITIS_APIKEY") env with
      | some k => .ok k
      | none => .error ⟨"The Monitis API key is required"⟩

/-- Module-level `resolve_secretkey()`: same shape as `resolve_apikey`. -/
def resolve_secretkey (cls : MonitisCls) (env : Env) : Except MonitisError String :=
  match cls.secretkey with
  | some k => .ok k
  | none =>
      match environ_key (if cls.sandbox then "MONITIS_SANDBOX_SECRETKEY" else "MONITIS_SECRETKEY") env with
      | some k => .ok k
      | none => .error ⟨"The Monitis secret key is required"⟩

/-- Top-level alias for the module-level `resolve_apikey`, so that the
method models below can refer to it from inside the `Monitis` namespace. -/
def resolveApikeyModule (cls : MonitisCls) (env : Env) : Except MonitisError String :=
  resolve_apikey cls env

/-- Top-level alias for the module-level `resolve_secretkey`. -/
def resolveSecretkeyModule (cls : MonitisCls) (env : Env) : Except MonitisError String :=
  resolve_secretkey cls env

/-- `Monitis.resolve_apikey(self)`.  `self.apikey` is Python attribute
lookup: the instance attribute when set, else the class attribute (during
`__init__`, before assignment, no instance attribute exists).  When the
attribute is `None` the module resolver runs; if it raises, the exception
propagates (the method's own trailing `raise` is unreachable, since the
module function never returns `None`). -/
def Monitis.resolve_apikey (selfApikey : Option String) (cls : MonitisCls)
    (env : Env) : Except MonitisError String :=
  match selfApikey with
  | some k => .ok k
  | none => resolveApikeyModule cls env

/-- `Monitis.resolve_secretkey(self)`: same shape. -/
def Monitis.resolve_secretkey (selfSecretkey : Option String) (cls : MonitisCls)
    (env : Env) : Except MonitisError String :=
  match selfSecretkey with
  | some k => .ok k
  | none => resolveSecretkeyModule cls env

/-- The full API-key chain as composed at a call site
(`apikey or self.resolve_apikey()` in `Monitis.__init__`): explicit
argument first (Python `or`: `''` falls through), then the `self.apikey`
attribute (instance attribute `instAttr`, falling back to the class
attribute), then the module resolver (class attribute, then environment). -/
def apikeyChain (arg instAttr : Option String) (cls : MonitisCls) (env : Env) :
    Except MonitisError String :=
  pyOrE arg (Monitis.resolve_apikey (instAttr <|> cls.apikey) cls env)

/-- The full secret-key chain, analogously. -/
def secretkeyChain (arg instAttr : Option String) (cls : MonitisCls) (env : Env) :
    Except MonitisError String :=
  pyOrE arg (Monitis.resolve_secretkey (instAttr <|> cls.secretkey) cls env)

/-! ## Decimal strings and `checktime` -/

/-- Little-endian decimal digits of `n`, with explicit fuel (`n` itself is
always enough fuel, since `n / 10 < n` for `n > 0`). -/
def digitsFuel : Nat → Nat → List Nat
  | 0, _ => []
  | fuel + 1, n => if n = 0 then [] else n % 10 :: digitsFuel fuel (n / 10)

/-- Little-endian decimal digits of `n` (empty for `0`). -/
def pyDigits (n : Nat) : List Nat := digitsFuel n n

/-- The character of a decimal digit. -/
def digitChar (d : Nat) : Char := Char.ofNat (48 + d)

/-- Python `str` of a non-negative integer: its decimal numeral. -/
def pyStrNat (n : Nat) : String :=
  if n = 0 then "0" else String.mk (((pyDigits n).map digitChar).reverse)

/-- Python `str` of an integer. -/
def pyStrInt : Int → String
  | .ofNat n => pyStrNat n
  | .negSucc m => "-" ++ pyStrNat (m + 1)

/-- `checktime(dt=None)`: `str(int(time()))` resp.
`str(int(mktime(dt.timetuple())))`, then `+ "000"`.  The whole-second epoch
integers are inputs of the model: `now` stands for `int(time())` and the
optional `dt` for `int(mktime(dt.timetuple()))`. -/
def checktime (now : Int) (dt : Option Int) : String :=
  (match dt with
   | none => pyStrInt now
   | some d => pyStrInt d) ++ "000"

/-! ## Sorting parameters and the two `checksum` implementations -/

/-- Python 2's `<` on byte strings (as character lists): strict
lexicographic comparison, shorter-prefix-first. -/
def strLtB : List Char → List Char → Bool
  | [], [] => false
  | [], _ :: _ => true
  | _ :: _, [] => false
  | a :: as, b :: bs =>
      if a.toNat < b.toNat then true
      else if b.toNat < a.toNat then false
      else strLtB as bs

/-- Python 2's `<=` on byte strings. -/
def strLeB (a b : List Char) : Bool := !strLtB b a

/-- Python 2's `<=` on `(key, value)` string pairs (tuple comparison:
compare the keys, then, if equal, the values).  This is the order behind
`sorted(kwargs.items())` and `args.sort()`. -/
def pairLeB (p q : String × String) : Bool :=
  if strLtB p.1.data q.1.data then true
  else if strLtB q.1.data p.1.data then false
  else strLeB p.2.data q.2.data

/-- The sort order as a relation, for `List.insertionSort`. -/
def pairRel (p q : String × String) : Prop := pairLeB p q = true

instance : DecidableRel pairRel := fun p q =>
  inferInstanceAs (Decidable (pairLeB p q = true))

/-- `sorted(kwargs.items())` / `args.sort()`: a `pairRel`-sorted permutation
of the entries.  `pairRel` is antisymmetric, so the sorted permutation is
unique and any correct sort (Python's included) yields this list. -/
def sortedPairs (d : PyDict) : PyDict := List.insertionSort pairRel d

/-- `''.join([''.join([str(x), str(y)]) for x, y in ...])` of the
module-level `checksum` (`str` of a Python 2 `str` is itself). -/
def paramStringJoin (l : PyDict) : String :=
  String.join (l.map (fun p => p.1 ++ p.2))

/-- The `param_string += str(key); param_string += str(value)` loop of
`Monitis.checksum`. -/
def paramStringFold (l : PyDict) : String :=
  l.foldl (fun acc p => acc ++ p.1 ++ p.2) ""

/-- The signing computation of the module-level `checksum` after the secret
key has been obtained: sort the entries, concatenate, HMAC-SHA1 with the
secret key, base64-encode. -/
def checksumCore (secretkey : String) (kwargs : PyDict) : String :=
  b64encode (hmacSha1 (strBytes secretkey)
    (strBytes (paramStringJoin (sortedPairs kwargs))))

/-- The signing computation of `Monitis.checksum` after the secret key has
been obtained (identical algorithm, written with the `+=` loop). -/
def checksumCoreMeth (secretkey : String) (kwargs : PyDict) : String :=
  b64encode (hmacSha1 (strBytes secretkey)
    (strBytes (paramStringFold (sortedPairs kwargs))))

/-- Module-level `checksum(**kwargs)`.
`secretkey = kwargs.pop('secretkey', resolve_secretkey())`: Python evaluates
the default argument eagerly, so `resolve_secretkey()` runs — and can raise —
even when `'secretkey'` is present in `kwargs`. -/
def checksum (cls : MonitisCls) (env : Env) (kwargs : PyDict) :
    Except MonitisError String :=
  match resolve_secretkey cls env with
  | .error e => .error e
  | .ok ambient =>
      let sk := (dlookup "secretkey" kwargs).getD ambient
      .ok (checksumCore sk (derase "secretkey" kwargs))

/-- `Monitis.checksum(self, **kwargs)`: use and delete `kwargs['secretkey']`
when present; otherwise `self.secretkey or resolve_secretkey()` (`or` is
short-circuit, so the resolver runs only when `self.secretkey` is falsy). -/
def Monitis.checksum (selfSecretkey : String) (cls : MonitisCls) (env : Env)
    (kwargs : PyDict) : Except MonitisError String :=
  match dlookup "secretkey" kwargs with
  | some sk => .ok (checksumCoreMeth sk (derase "secretkey" kwargs))
  | none =>
      match (if selfSecretkey = "" then resolveSecretkeyModule cls env
             else .ok selfSecretkey) with
      | .error e => .error e
      | .ok sk => .ok (checksumCoreMeth sk kwargs)

/-! ## JSON decoding (`json.loads` / `decode_json`) -/

/-- Decoded JSON documents, as returned by `json.loads`: `None`, booleans,
integers, strings, lists, dicts.  Floats are outside this model (no claim or
theorem in this file produces one). -/
inductive Json where
  | null
  | bool (b : Bool)
  | int (n : Int)
  | str (s : String)
  | arr (elems : List Json)
  | obj (fields : List (String × Json))

/-- Skip JSON whitespace. -/
def jsonWs (cs : List Char) : List Char :=
  cs.dropWhile (fun c => c == ' ' || c == '\t' || c == '\n' || c == '\r')

/-- Hex digit value. -/
def hexVal (c : Char) : Option Nat :=
  if '0' ≤ c ∧ c ≤ '9' then some (c.toNat - 48)
  else if 'a' ≤ c ∧ c ≤ 'f' then some (c.toNat - 87)
  else if 'A' ≤ c ∧ c ≤ 'F' then some (c.toNat - 55)
  else none

/-- Parse the body of a JSON string after the opening quote (escapes:
the simple ones and `\uXXXX` below the surrogate range, which is all the
claims need). -/
def parseStrAux : Nat → List Char → List Char → Option (String × List Char)
  | 0, _, _ => none
  | _ + 1, acc, '"' :: cs => some (String.mk acc.reverse, cs)
  | fuel + 1, acc, '\\' :: e :: cs =>
      (match e, cs with
       | '"', _ => parseStrAux fuel ('"' :: acc) cs
       | '\\', _ => parseStrAux fuel ('\\' :: acc) cs
       | '/', _ => parseStrAux fuel ('/' :: acc) cs
       | 'b', _ => parseStrAux fuel ('\x08' :: acc) cs
       | 'f', _ => parseStrAux fuel ('\x0c' :: acc) cs
       | 'n', _ => parseStrAux fuel ('\n' :: acc) cs
       | 'r', _ => parseStrAux fuel ('\x0d' :: acc) cs
       | 't', _ => parseStrAux fuel ('\t' :: acc) cs
       | 'u', h1 :: h2 :: h3 :: h4 :: cs' =>
           (match hexVal h1, hexVal h2, hexVal h3, hexVal h4 with
            | some a, some b, some c, some d =>
                let n := ((a * 16 + b) * 16 + c) * 16 + d
                if n < 0xD800 then parseStrAux fuel (Char.ofNat n :: acc) cs' else none
            | _, _, _, _ => none)
       | _, _ => none)
  | fuel + 1, acc, c :: cs => parseStrAux fuel (c :: acc) cs
  | _, _, [] => none

/-- The value of a digit run. -/
def digitsToNat (ds : List Char) : Nat :=
  ds.foldl (fun a c => a * 10 + (c.toNat - 48)) 0

/-- Intermediate parser outputs: a value, an array tail, or an object tail. -/
inductive POut where
  | v (j : Json)
  | vs (js : List Json)
  | fs (kvs : List (String × Json))

/-- Parser task selector. -/
inductive PTask
  | val
  | elems
  | fields

/-- A fuelled recursive-descent JSON parser covering `null`, booleans,
integers, strings, arrays and objects (the fragment every theorem of this
file stays inside; Python's `json.loads` additionally accepts floats). -/
def parseAny : Nat → PTask → List Char → Option (POut × List Char)
  | 0, _, _ => none
  | fuel + 1, .val, cs =>
      (match jsonWs cs with
       | 'n' :: 'u' :: 'l' :: 'l' :: rest => some (.v .null, rest)
       | 't' :: 'r' :: 'u' :: 'e' :: rest => some (.v (.bool true), rest)
       | 'f' :: 'a' :: 'l' :: 's' :: 'e' :: rest => some (.v (.bool false), rest)
       | '"' :: rest => (parseStrAux fuel [] rest).map (fun p => (.v (.str p.1), p.2))
       | '[' :: rest =>
           (match jsonWs rest with
            | ']' :: rest' => some (.v (.arr []), rest')
            | _ => do
                let (o, cs') ← parseAny fuel .elems rest
                match o with
                | .vs js => some (.v (.arr js), cs')
                | _ => none)
       | '{' :: rest =>
           (match jsonWs rest with
            | '}' :: rest' => some (.v (.obj []), rest')
            | _ => do
                let (o, cs') ← parseAny fuel .fields rest
                match o with
                | .fs kvs => some (.v (.obj kvs), cs')
                | _ => none)
       | '-' :: rest =>
           (match rest.span Char.isDigit with
            | (ds, rest') =>
                if ds.isEmpty then none
                else some (.v (.int (-(digitsToNat ds : Int))), rest'))
       | c :: rest =>
           if c.isDigit then
             match (c :: rest).span Char.isDigit with
             | (ds, rest') => some (.v (.int (digitsToNat ds)), rest')
           else none
       | [] => none)
  | fuel + 1, .elems, cs => do
      let (o, cs') ← parseAny fuel .val cs
      match o with
      | .v j =>
          (match jsonWs cs' with
           | ',' :: rest => do
               let (o2, cs'') ← parseAny fuel .elems rest
               match o2 with
               | .vs js => some (POut.vs (j :: js), cs'')
               | _ => none
           | ']' :: rest => some (POut.vs [j], rest)
           | _ => none)
      | _ => none
  | fuel + 1, .fields, cs =>
      (match jsonWs cs with
       | '"' :: rest => do
           let (k, cs') ← parseStrAux fuel [] rest
           match jsonWs cs' with
           | ':' :: rest' => do
               let (o, cs'') ← parseAny fuel .val rest'
               match o with
               | .v j =>
                   (match jsonWs cs'' with
                    | ',' :: rest'' => do
                        let (o2, cs3) ← parseAny fuel .fields rest''
                        match o2 with
                        | .fs kvs => some (POut.fs ((k, j) :: kvs), cs3)
                        | _ => none
                    | '}' :: rest'' => some (POut.fs [(k, j)], rest'')
                    | _ => none)
               | _ => none
           | _ => none
       | _ => none)

/-- `json.loads` on this model's JSON fragment: parse one document and
require only whitespace after it. -/
def loads (s : String) : Option Json :=
  match parseAny (2 * s.length + 4) .val s.data with
  | some (.v j, rest) => if (jsonWs rest).isEmpty then some j else none
  | _ => none

/-- `decode_json(json)`: `loads`, wrapping parse failures in
`MonitisError('JSON parse error: ...')` (Python embeds the parser's own
message; no claim inspects the message text, and this model appends the
offending input instead). -/
def decode_json (json : String) : Except MonitisError Json :=
  match loads json with
  | some j => .ok j
  | none => .error ⟨"JSON parse error: " ++ json⟩

/-! ## Transport (GET/POST) and the `Monitis` facade

The network round trip is modelled by a `body` input — the bytes a
successful `urlopen(...).read()` returns — and by recording, in the result,
the `HttpRequest` that was submitted.  An `.error` result occurs before the
request value exists, i.e. the transport was never invoked.  The `HTTPError`
branch (server-side failure) is outside the claims and not modelled.  The
heterogeneous `_raw` keyword is modelled as the separate boolean `raw`
(`kwargs.pop('_raw', False)`), so `kwargs` itself never contains `'_raw'`. -/

/-- The request a transport call submits: target URL and final parameter
set.  (`urlencode` serialization of the parameters is not modelled; the
claims are about the parameter set itself.) -/
structure HttpRequest where
  url : String
  params : PyDict
deriving DecidableEq, Repr

/-- What a transport call hands back to the caller, with Python 2 typing:
a decoded JSON document (`json.loads` output), a raw byte-string body
(`result.read()`), or the unparsed response object (`_raw=True`).  A decoded
document is never the same Python value as the raw `str` body (`loads`
returns `unicode`/containers/numbers). -/
inductive PyVal where
  | pyJson (j : Json)
  | pyStr (s : String)
  | rawResponse (body : String)

/-- `get(apikey=None, action=None, version='2', _url=None, **kwargs)`. -/
def get (cls : MonitisCls) (env : Env) (apikey action : Option String)
    (version : String) (url : Option String) (kwargs : PyDict) (raw : Bool)
    (body : String) : Except MonitisError (HttpRequest × PyVal) :=
  let theUrl := pyOrS url (api_url cls)
  let output := "JSON"
  match pyOrE apikey (resolve_apikey cls env) with
  | .error e => .error e
  | .ok key =>
      if key = "" then .error ⟨"get: apikey is required"⟩
      else if !truthy action then .error ⟨"get: action is required"⟩
      else
        let req_params :=
          [("apikey", key), ("action", action.getD ""), ("output", output),
           ("version", version)] ++ kwargs
        let req : HttpRequest := ⟨theUrl, req_params⟩
        if raw then .ok (req, .rawResponse body)
        else
          match decode_json body with
          | .error e => .error e
          | .ok j => .ok (req, .pyJson j)

/-- `post(apikey=None, secretkey=None, action=None, version=2, _url=None,
**kwargs)`.  The source's `version` default is the int `2`; every use
applies `str()`, so it is modelled as a string.  `timestamp()` (current GMT
time) is the input `ts`.  Note the `checksum(secretkey=secretkey,
**post_args)` call goes through the module-level `checksum`, whose eagerly
evaluated pop default re-runs `resolve_secretkey()`. -/
def post (cls : MonitisCls) (env : Env) (apikey secretkey action : Option String)
    (version : String) (url : Option String) (kwargs : PyDict) (raw : Bool)
    (ts : String) (body : String) : Except MonitisError (HttpRequest × PyVal) :=
  match pyOrE apikey (resolve_apikey cls env) with
  | .error e => .error e
  | .ok key =>
      match pyOrE secretkey (resolve_secretkey cls env) with
      | .error e => .error e
      | .ok sk =>
          let theUrl := pyOrS url (api_url cls)
          if !truthy action then .error ⟨"post: action is required"⟩
          else
            let post_args :=
              dinsert "timestamp" ts (dinsert "version" version
                (dinsert "action" (action.getD "") (dinsert "apikey" key kwargs)))
            match checksum cls env (dinsert "secretkey" sk post_args) with
            | .error e => .error e
            | .ok sig =>
                let params := dinsert "checksum" sig post_args
                let req : HttpRequest := ⟨theUrl, params⟩
                if raw then .ok (req, .rawResponse body)
                else
                  match decode_json body with
                  | .error e => .error e
                  | .ok j => .ok (req, .pyJson j)

/-- The instance attributes a constructed `Monitis` object holds. -/
structure Monitis where
  url : String
  apikey : String
  secretkey : String
  validation : String
  version : String
deriving DecidableEq, Repr

/-- `Monitis.__init__(self, apikey=None, secretkey=None, _url=None,
version=None, validation=None)`.  During construction `self.apikey` /
`self.secretkey` attribute lookups still see the class attributes. -/
def Monitis.init (cls : MonitisCls) (env : Env)
    (apikey secretkey urlArg version validation : Option String) :
    Except MonitisError Monitis :=
  let url := pyOrS urlArg (api_url cls)
  match pyOrE apikey (Monitis.resolve_apikey cls.apikey cls env) with
  | .error e => .error e
  | .ok key =>
      match pyOrE secretkey (Monitis.resolve_secretkey cls.secretkey cls env) with
      | .error e => .error e
      | .ok sk =>
          .ok ⟨url, key, sk, pyOrS validation "HMACSHA1", pyOrS version "2"⟩

/-- `Monitis.post(self, **kwargs)`: stamp `apikey`, `version`, `timestamp`
(but not `action`), sign via `self.checksum`, append `checksum`, post to
`self.url`, and return the raw body string `ret` — there is no action
check, no `_raw` handling, and no JSON decoding. -/
def Monitis.post (self : Monitis) (cls : MonitisCls) (env : Env)
    (kwargs : PyDict) (ts : String) (body : String) :
    Except MonitisError (HttpRequest × PyVal) :=
  let post_args :=
    dinsert "timestamp" ts (dinsert "version" self.version
      (dinsert "apikey" self.apikey kwargs))
  match Monitis.checksum self.secretkey cls env post_args with
  | .error e => .error e
  | .ok sig =>
      let params := dinsert "checksum" sig post_args
      .ok (⟨self.url, params⟩, .pyStr body)

/-! ## Spec-side definitions

These follow the spec's words, for refinement comparisons against the
source-derived definitions above. -/

/-- Key-only comparison on parameter entries ("sort the parameter entries by
key name", claim C3). -/
def keyRel (p q : String × String) : Prop := strLeB p.1.data q.1.data = true

instance : DecidableRel keyRel := fun p q =>
  inferInstanceAs (Decidable (strLeB p.1.data q.1.data = true))

/-- The Signer exactly as the spec words it (claim C3): sort the entries
lexicographically by key name, concatenate each key immediately followed by
its value, HMAC-SHA1 the string with the secret key, base64-encode. -/
def checksumSpec (secretkey : String) (kwargs : PyDict) : String :=
  b64encode (hmacSha1 (strBytes secretkey)
    (strBytes (String.join ((List.insertionSort keyRel kwargs).map
      (fun p => p.1 ++ p.2)))))

/-- "first non-empty value wins" (claim C4): the first entry of the chain
that is present and non-empty. -/
def firstNonEmptySpec : List (Option String) → Option String
  | [] => none
  | a :: rest =>
      match a with
      | some s => if s = "" then firstNonEmptySpec rest else some s
      | none => firstNonEmptySpec rest

/-! ## Concrete fixtures used by the counterexamples and witnesses -/

/-- An empty environment: no `MONITIS_*` variables set. -/
def envEmpty : Env := fun _ => none

/-- An environment holding only a production API key. -/
def envProdKey : Env := fun n => if n = "MONITIS_APIKEY" then some "envkey" else none

/-- Pristine class state: no keys configured, production mode. -/
def cls0 : MonitisCls := {}

/-- Class state whose class-level API key is the empty string. -/
def clsEmptyApikey : MonitisCls := { apikey := some "" }

/-- Class state with a configured (non-empty) secret key. -/
def clsWithSecret : MonitisCls := { secretkey := some "ambient" }

/-- The spec's signature test vector `{action: "test", apikey: "abc", version: "2"}`. -/
def testVector : PyDict := [("action", "test"), ("apikey", "abc"), ("version", "2")]

/-- A 65-byte secret key (one byte over the HMAC block size). -/
def keyLong : String := String.mk (List.replicate 65 'a')

/-- The 20-byte SHA-1 digest of `keyLong`, as a Python 2 byte string.
RFC 2104 hashes overlong keys first, so `keyLong` and `keyLongDigest`
produce identical HMACs. -/
def keyLongDigest : String := stringOfBytes (sha1 (strBytes keyLong))

/-- A constructed facade instance with concrete credentials. -/
def inst0 : Monitis :=
  { url := "http://monitis.com/api", apikey := "abc", secretkey := "secret",
    validation := "HMACSHA1", version := "2" }

/-- The keys of a parameter set are pairwise distinct (always true of a
Python dict). -/
def KeysNodup (d : PyDict) : Prop := (d.map Prod.fst).Nodup

/-- No name (underscore or provider spelling) is shared between two
different `(lc, cc)` pairs of a `validate_kwargs` name specification. -/
def PairsDisjoint (ps : List (String × String)) : Prop :=
  ps.Pairwise (fun p q => p.1 ≠ q.1 ∧ p.1 ≠ q.2 ∧ p.2 ≠ q.1 ∧ p.2 ≠ q.2)

/-- The `(underscore, provider)` name pairs built from a list-form
specification (`temp_required[camel2under(word)] = word`). -/
def pairsOf (words : List String) : List (String × String) :=
  words.map (fun w => (camel2under w, w))

/-- A parameter set carrying an explicit `secretkey` entry (C10's
counterexample input). -/
def kwExplicitSk : PyDict := [("secretkey", "abc"), ("action", "test")]

/-! # Theorems

Shared helper lemmas first, then, per claim, its theorem and (where
required) witness or counterexample. -/

theorem string_mk_append (a b : List Char) :
    String.mk (a ++ b) = String.mk a ++ String.mk b := rfl

theorem string_mk_inj {a b : List Char} (h : String.mk a = String.mk b) : a = b := by
  cases h; rfl

theorem dlookup_cons (a b k : String) (d : PyDict) :
    dlookup k ((a, b) :: d) = if a = k then some b else dlookup k d := by
  by_cases h : a = k <;> simp [dlookup, List.find?_cons, h]

theorem dlookup_append (k : String) (d₁ d₂ : PyDict) :
    dlookup k (d₁ ++ d₂) = (dlookup k d₁ <|> dlookup k d₂) := by
  induction d₁ with
  | nil => simp [dlookup]
  | cons p t ih =>
      obtain ⟨a, b⟩ := p
      by_cases h : a = k <;> simp [dlookup_cons, h, ih]

theorem derase_cons (a b k : String) (d : PyDict) :
    derase k ((a, b) :: d) = if a = k then derase k d else (a, b) :: derase k d := by
  by_cases h : a = k <;> simp [derase, List.filter_cons, h]

theorem dlookup_derase_self (k : String) (d : PyDict) :
    dlookup k (derase k d) = none := by
  induction d with
  | nil => simp [derase, dlookup]
  | cons p t ih =>
      obtain ⟨a, b⟩ := p
      by_cases h : a = k <;> simp [derase_cons, dlookup_cons, h, ih]

theorem dlookup_derase_ne {k k' : String} (h : k' ≠ k) (d : PyDict) :
    dlookup k (derase k' d) = dlookup k d := by
  induction d with
  | nil => simp [derase]
  | cons p t ih =>
      obtain ⟨a, b⟩ := p
      rw [derase_cons]
      by_cases ha : a = k'
      · rw [if_pos ha, ih, dlookup_cons, if_neg (ha ▸ h)]
      · rw [if_neg ha, dlookup_cons, dlookup_cons, ih]

theorem dlookup_dinsert_self (k v : String) (d : PyDict) :
    dlookup k (dinsert k v d) = some v := by
  rw [dinsert, dlookup_append, dlookup_derase_self]
  simp [dlookup_cons, dlookup]

theorem dlookup_dinsert_ne {k k' : String} (h : k' ≠ k) (v : String) (d : PyDict) :
    dlookup k (dinsert k' v d) = dlookup k d := by
  rw [dinsert, dlookup_append, dlookup_derase_ne h, dlookup_cons]
  simp [h, dlookup]

theorem derase_derase (k k' : String) (d : PyDict) :
    derase k (derase k' d) = derase k' (derase k d) := by
  simp [derase, List.filter_filter, Bool.and_comm]

theorem derase_dinsert_self (k v : String) (d : PyDict) :
    derase k (dinsert k v d) = derase k d := by
  simp [dinsert, derase, List.filter_append, List.filter_filter]

theorem derase_dinsert_ne {k k' : String} (h : k' ≠ k) (v : String) (d : PyDict) :
    derase k (dinsert k' v d) = dinsert k' v (derase k d) := by
  simp only [dinsert, derase, List.filter_append, List.filter_filter]
  congr 1
  · congr 1
    funext p
    by_cases h1 : p.1 = k <;> by_cases h2 : p.1 = k' <;>
      simp [h1, h2, Bool.and_comm]
  · simp [List.filter_cons, h]

theorem keysNodup_derase (k : String) {d : PyDict} (h : KeysNodup d) :
    KeysNodup (derase k d) := by
  unfold KeysNodup at *
  induction d with
  | nil => simp [derase]
  | cons p t ih =>
      obtain ⟨a, b⟩ := p
      simp only [List.map_cons, List.nodup_cons] at h
      rw [derase_cons]
      by_cases ha : a = k
      · rw [if_pos ha]
        exact ih h.2
      · rw [if_neg ha]
        simp only [List.map_cons, List.nodup_cons]
        refine ⟨fun hmem => h.1 ?_, ih h.2⟩
        simp only [List.mem_map] at hmem ⊢
        obtain ⟨q, hq, hqx⟩ := hmem
        exact ⟨q, List.mem_of_mem_filter hq, hqx⟩

theorem dlookup_of_keysNodup_not_mem {k : String} {d : PyDict}
    (h : ∀ p ∈ d, p.1 ≠ k) : dlookup k d = none := by
  induction d with
  | nil => rfl
  | cons p t ih =>
      obtain ⟨a, b⟩ := p
      simp only [List.mem_cons] at h
      have ha : a ≠ k := h (a, b) (Or.inl rfl)
      rw [dlookup_cons, if_neg ha]
      exact ih fun q hq => h q (Or.inr hq)

theorem keysNodup_dinsert (k v : String) {d : PyDict} (h : KeysNodup d) :
    KeysNodup (dinsert k v d) := by
  unfold KeysNodup at *
  unfold dinsert
  rw [List.map_append, List.nodup_append]
  refine ⟨keysNodup_derase k h, by simp, ?_⟩
  intro x hx
  simp only [List.map_cons, List.map_nil, List.mem_singleton]
  simp only [List.mem_map] at hx
  obtain ⟨q, hq, hqx⟩ := hx
  intro hxk
  have := List.of_mem_filter hq
  rw [hqx, hxk] at this
  simp at this

/-! ### Decimal-representation lemmas (claim C8) -/

theorem digitsFuel_zero (f : Nat) : digitsFuel f 0 = [] := by
  cases f <;> simp [digitsFuel]

theorem digitsFuel_congr :
    ∀ f₁ f₂ n, n ≤ f₁ → n ≤ f₂ → digitsFuel f₁ n = digitsFuel f₂ n := by
  intro f₁
  induction f₁ with
  | zero =>
      intro f₂ n h1 _
      have : n = 0 := by omega
      subst this
      rw [digitsFuel_zero, digitsFuel_zero]
  | succ f ih =>
      intro f₂ n h1 h2
      by_cases hn : n = 0
      · subst hn; rw [digitsFuel_zero, digitsFuel_zero]
      · obtain ⟨f₂', rfl⟩ : ∃ m, f₂ = m + 1 := ⟨f₂ - 1, by omega⟩
        simp only [digitsFuel, hn, if_false]
        congr 1
        exact ih f₂' (n / 10) (by omega) (by omega)

theorem pyDigits_pos {n : Nat} (h : 0 < n) :
    pyDigits n = n % 10 :: pyDigits (n / 10) := by
  unfold pyDigits
  obtain ⟨m, rfl⟩ : ∃ m, n = m + 1 := ⟨n - 1, by omega⟩
  simp only [digitsFuel, Nat.succ_ne_zero, if_false]
  congr 1
  exact digitsFuel_congr m ((m + 1) / 10) ((m + 1) / 10) (by omega) (by omega)

theorem pyDigits_mul_ten {n : Nat} (h : 0 < n) :
    pyDigits (10 * n) = 0 :: pyDigits n := by
  rw [pyDigits_pos (by omega)]
  have h1 : 10 * n % 10 = 0 := by omega
  have h2 : 10 * n / 10 = n := by omega
  rw [h1, h2]

theorem pyStrNat_mul_1000 {n : Nat} (h : 0 < n) :
    pyStrNat (1000 * n) = pyStrNat n ++ "000" := by
  have h1 : (1000 : Nat) * n = 10 * (10 * (10 * n)) := by ring
  unfold pyStrNat
  rw [if_neg (by omega), if_neg (by omega), h1,
    pyDigits_mul_ten (by omega), pyDigits_mul_ten (by omega), pyDigits_mul_ten h]
  rw [List.map_cons, List.map_cons, List.map_cons, List.reverse_cons,
    List.reverse_cons, List.reverse_cons, List.append_assoc, List.append_assoc]
  rw [string_mk_append]
  rfl

/-- C8: for every point in time handed to `checktime` (as the whole-second
epoch integer the source computes with `int(...)`), the result is the
decimal string of that integer with `"000"` appended — equivalently, for a
positive epoch second `n`, the decimal string of `1000 * n` — and for epoch
second `1000000` it is exactly `"1000000000"`. -/
theorem C8_checktime (now : Int) (dt : Option Int) :
    checktime now dt = pyStrInt (dt.getD now) ++ "000" ∧
    (∀ n : Nat, 0 < n → checktime now (some (n : Int)) = pyStrNat (1000 * n)) ∧
    checktime now (some 1000000) = "1000000000" := by
  refine ⟨?_, ?_, ?_⟩
  · cases dt <;> rfl
  · intro n hn
    show pyStrNat n ++ "000" = pyStrNat (1000 * n)
    exact (pyStrNat_mul_1000 hn).symm
  · rfl

/-- Witness for C8 at epoch seconds `1000000` and `7`. -/
theorem C8_checktime_witness :
    checktime 12 (some 1000000) = "1000000000" ∧ 0 < (7 : Nat) ∧
      checktime 12 (some ((7 : Nat) : Int)) = pyStrNat (1000 * 7) :=
  ⟨(C8_checktime 12 (some 1000000)).2.2, by decide,
    (C8_checktime 12 (some ((7 : Nat) : Int))).2.1 7 (by decide)⟩

/-! ### Character and `camel2under` lemmas (claim C5) -/

theorem char_toNat_ofNat {n : Nat} (h : n < 55296) : (Char.ofNat n).toNat = n := by
  rw [Char.ofNat, dif_pos (Or.inl h)]
  rfl

theorem pyIsUpper_toNat {c : Char} (h : pyIsUpper c = true) :
    65 ≤ c.toNat ∧ c.toNat ≤ 90 := by
  unfold pyIsUpper at h
  simp only [Bool.and_eq_true, decide_eq_true_eq] at h
  exact h

theorem pyIsUpper_pyLower (c : Char) : pyIsUpper (pyLower c) = false := by
  unfold pyLower
  by_cases h : pyIsUpper c = true
  · rw [if_pos h]
    obtain ⟨h1, h2⟩ := pyIsUpper_toNat h
    unfold pyIsUpper
    rw [char_toNat_ofNat (by omega)]
    simp only [Bool.and_eq_false_iff, decide_eq_false_iff_not]
    right; omega
  · rw [if_neg h]
    exact Bool.not_eq_true _ |>.mp h

theorem pyLower_eq_self {c : Char} (h : pyIsUpper c = false) : pyLower c = c := by
  simp [pyLower, h]

theorem c2uLoop_no_pair : ∀ {l : List Char},
    l.Chain' (fun c d => (pyIsLower c && pyIsUpper d) = false) → c2uLoop l = l
  | [], _ => rfl
  | [_], _ => rfl
  | c :: d :: rest, h => by
      rw [List.chain'_cons] at h
      rw [c2uLoop.eq_def]
      simp only [h.1, Bool.false_eq_true, if_false]
      rw [c2uLoop_no_pair h.2]

theorem chain'_no_pair_of_no_upper : ∀ {l : List Char},
    (∀ c ∈ l, pyIsUpper c = false) →
    l.Chain' (fun c d => (pyIsLower c && pyIsUpper d) = false)
  | [], _ => by simp
  | [_], _ => by simp
  | c :: d :: rest, h => by
      rw [List.chain'_cons]
      refine ⟨?_, chain'_no_pair_of_no_upper fun x hx => h x (List.mem_cons_of_mem _ hx)⟩
      rw [h d (by simp), Bool.and_false]

theorem string_mk_data (s : String) : String.mk s.data = s := rfl

theorem camel2under_of_no_upper {w : String}
    (h : ∀ c ∈ w.data, pyIsUpper c = false) : camel2under w = w := by
  unfold camel2under
  rw [c2uLoop_no_pair (chain'_no_pair_of_no_upper h)]
  have hmap : w.data.map pyLower = w.data.map id :=
    List.map_congr_left fun c hc => pyLower_eq_self (h c hc)
  rw [hmap, List.map_id, string_mk_data]

theorem camel2under_no_upper (w : String) :
    ∀ c ∈ (camel2under w).data, pyIsUpper c = false := by
  intro c hc
  unfold camel2under at hc
  have hc' : c ∈ (c2uLoop w.data).map pyLower := hc
  simp only [List.mem_map] at hc'
  obtain ⟨c', _, rfl⟩ := hc'
  exact pyIsUpper_pyLower c'

/-! ### C5: the name-conversion claim -/

/-- C5 (amended): `camel2under` maps the spec's examples as claimed, leaves
non-empty words with no uppercase letter (in particular all-lowercase and
underscore-delimited names) unchanged, is idempotent, inserts nothing in the
absence of a lowercase→uppercase boundary (hence not at upper→upper or
digit transitions, where it merely lowercases), inserts `'_'` at every such
boundary, and lowercases single-character words (an uppercase single
character is lowercased, not left unchanged — the one deviation from the
claim as stated). -/
theorem C5_camel2under :
    camel2under "agentId" = "agent_id" ∧
    camel2under "allAgentsSnapshot" = "all_agents_snapshot" ∧
    camel2under "agents" = "agents" ∧
    (∀ w : String, w ≠ "" → (∀ c ∈ w.data, pyIsUpper c = false) →
      camel2under w = w) ∧
    (∀ w : String, camel2under (camel2under w) = camel2under w) ∧
    (∀ c : Char, camel2under (String.mk [c]) = String.mk [pyLower c]) ∧
    (∀ w : String, w.data.Chain' (fun c d => (pyIsLower c && pyIsUpper d) = false) →
      camel2under w = String.mk (w.data.map pyLower)) ∧
    (∀ (c d : Char) (rest : List Char), (pyIsLower c && pyIsUpper d) = true →
      camel2under (String.mk (c :: d :: rest)) =
        String.mk (c :: '_' :: (c2uLoop (d :: rest)).map pyLower)) := by
  refine ⟨by decide, by decide, by decide, ?_, ?_, ?_, ?_, ?_⟩
  · intro w _ h
    exact camel2under_of_no_upper h
  · intro w
    exact camel2under_of_no_upper (camel2under_no_upper w)
  · intro c
    rfl
  · intro w h
    unfold camel2under
    rw [c2uLoop_no_pair h]
  · intro c d rest h
    unfold camel2under
    rw [c2uLoop.eq_def]
    simp only [h, if_true]
    rw [List.map_cons, List.map_cons]
    have hc : pyLower c = c := by
      apply pyLower_eq_self
      unfold pyIsLower at h
      unfold pyIsUpper
      simp only [Bool.and_eq_true, decide_eq_true_eq] at h
      simp only [Bool.and_eq_false_iff, decide_eq_false_iff_not]
      right
      omega
    rw [hc]
    rfl

/-- C5 counterexample: a single-character uppercase name is not left
unchanged — `camel2under('A')` is `'a'`. -/
theorem C5_counterexample : camel2under "A" = "a" ∧ ("a" : String) ≠ "A" := by
  constructor
  · decide
  · decide

/-- Witness for C5 at the all-lowercase underscore-delimited name
`"agent_id"`. -/
theorem C5_camel2under_witness :
    ("agent_id" : String) ≠ "" ∧
    (∀ c ∈ ("agent_id" : String).data, pyIsUpper c = false) ∧
    camel2under "agent_id" = "agent_id" :=
  ⟨by decide, by decide, C5_camel2under.2.2.2.1 "agent_id" (by decide) (by decide)⟩

/-! ### Byte-string comparison lemmas (for the sorting arguments) -/

theorem str_data_inj {s t : String} (h : s.data = t.data) : s = t := by
  cases s; cases t; cases h; rfl

theorem char_toNat_inj {a b : Char} (h : a.toNat = b.toNat) : a = b := by
  have := congrArg Char.ofNat h
  rwa [Char.ofNat_toNat, Char.ofNat_toNat] at this

theorem strLtB_irrefl : ∀ l, strLtB l l = false
  | [] => rfl
  | c :: t => by simp [strLtB, strLtB_irrefl t]

theorem strLtB_asymm : ∀ {a b : List Char}, strLtB a b = true → strLtB b a = false
  | [], [], h => by simp [strLtB] at h
  | [], _ :: _, _ => rfl
  | _ :: _, [], h => by simp [strLtB] at h
  | a :: as, b :: bs, h => by
      by_cases h1 : a.toNat < b.toNat
      · have h1' : ¬b.toNat < a.toNat := by omega
        simp [strLtB, h1, h1']
      · by_cases h2 : b.toNat < a.toNat
        · simp [strLtB, h1, h2] at h
        · simp only [strLtB, h1, h2, if_false] at h ⊢
          exact strLtB_asymm h

theorem strLtB_conn : ∀ {a b : List Char},
    strLtB a b = false → strLtB b a = false → a = b
  | [], [], _, _ => rfl
  | [], _ :: _, h, _ => by simp [strLtB] at h
  | _ :: _, [], _, h => by simp [strLtB] at h
  | a :: as, b :: bs, h, h' => by
      by_cases h1 : a.toNat < b.toNat
      · simp [strLtB, h1] at h
      · by_cases h2 : b.toNat < a.toNat
        · simp [strLtB, h2] at h'
        · have hab : a = b := char_toNat_inj (by omega)
          subst hab
          simp only [strLtB, h1, h2, if_false] at h h'
          rw [strLtB_conn h h']

theorem strLtB_trans : ∀ {a b c : List Char},
    strLtB a b = true → strLtB b c = true → strLtB a c = true
  | [], b, c, h1, h2 => by
      cases b with
      | nil => simp [strLtB] at h1
      | cons x xs =>
          cases c with
          | nil => simp [strLtB] at h2
          | cons y ys => rfl
  | _ :: _, [], _, h1, _ => by simp [strLtB] at h1
  | _ :: _, _ :: _, [], _, h2 => by simp [strLtB] at h2
  | a :: as, b :: bs, c :: cs, h1, h2 => by
      by_cases hab : a.toNat < b.toNat <;> by_cases hbc : b.toNat < c.toNat
      · have hac : a.toNat < c.toNat := by omega
        simp [strLtB, hac]
      · have hcb : ¬c.toNat < b.toNat := by
          intro hcb
          simp [strLtB, hbc, hcb] at h2
        have hac : a.toNat < c.toNat := by omega
        simp [strLtB, hac]
      · have hba : ¬b.toNat < a.toNat := by
          intro hba
          simp [strLtB, hab, hba] at h1
        have hac : a.toNat < c.toNat := by omega
        simp [strLtB, hac]
      · have hba : ¬b.toNat < a.toNat := by
          intro hba
          simp [strLtB, hab, hba] at h1
        have hcb : ¬c.toNat < b.toNat := by
          intro hcb
          simp [strLtB, hbc, hcb] at h2
        have hac : ¬a.toNat < c.toNat := by omega
        have hca : ¬c.toNat < a.toNat := by omega
        simp only [strLtB, hab, hba, hbc, hcb, hac, hca, if_false] at h1 h2 ⊢
        exact strLtB_trans h1 h2

theorem strLtB_le_trans {a b c : List Char} (h1 : strLtB b a = false)
    (h2 : strLtB c b = false) : strLtB c a = false := by
  by_contra hcon
  rw [Bool.not_eq_false] at hcon
  by_cases hbc : strLtB b c = true
  · have := strLtB_trans hbc hcon
    rw [h1] at this
    exact Bool.false_ne_true this
  · rw [Bool.not_eq_true] at hbc
    rw [strLtB_conn hbc h2] at h1
    rw [h1] at hcon
    exact Bool.false_ne_true hcon

theorem pairLeB_cases {p q : String × String} (h : pairLeB p q = true) :
    strLtB p.1.data q.1.data = true ∨
    (strLtB p.1.data q.1.data = false ∧ strLtB q.1.data p.1.data = false ∧
      strLtB q.2.data p.2.data = false) := by
  unfold pairLeB at h
  by_cases h1 : strLtB p.1.data q.1.data = true
  · exact Or.inl h1
  · rw [Bool.not_eq_true] at h1
    rw [h1] at h
    simp only [Bool.false_eq_true, if_false] at h
    by_cases h2 : strLtB q.1.data p.1.data = true
    · rw [h2] at h
      simp at h
    · rw [Bool.not_eq_true] at h2
      rw [h2] at h
      simp only [Bool.false_eq_true, if_false, strLeB, Bool.not_eq_true'] at h
      exact Or.inr ⟨h1, h2, h⟩

theorem pairLeB_of_lt {p q : String × String}
    (h : strLtB p.1.data q.1.data = true) : pairLeB p q = true := by
  unfold pairLeB
  rw [h]
  simp

theorem pairLeB_of_eq {p q : String × String}
    (h1 : strLtB p.1.data q.1.data = false) (h2 : strLtB q.1.data p.1.data = false)
    (h3 : strLtB q.2.data p.2.data = false) : pairLeB p q = true := by
  unfold pairLeB strLeB
  rw [h1, h2, h3]
  simp

instance : IsTotal (String × String) pairRel := by
  constructor
  intro p q
  unfold pairRel
  by_cases h1 : strLtB p.1.data q.1.data = true
  · exact Or.inl (pairLeB_of_lt h1)
  · rw [Bool.not_eq_true] at h1
    by_cases h2 : strLtB q.1.data p.1.data = true
    · exact Or.inr (pairLeB_of_lt h2)
    · rw [Bool.not_eq_true] at h2
      by_cases h3 : strLtB q.2.data p.2.data = true
      · exact Or.inr (pairLeB_of_eq h2 h1 (strLtB_asymm h3))
      · rw [Bool.not_eq_true] at h3
        exact Or.inl (pairLeB_of_eq h1 h2 h3)

instance : IsTrans (String × String) pairRel := by
  constructor
  intro p q r h1 h2
  unfold pairRel at *
  rcases pairLeB_cases h1 with ha | ⟨ha1, ha2, ha3⟩
  · rcases pairLeB_cases h2 with hb | ⟨hb1, hb2, _⟩
    · exact pairLeB_of_lt (strLtB_trans ha hb)
    · have : q.1.data = r.1.data := strLtB_conn hb1 hb2
      exact pairLeB_of_lt (this ▸ ha)
  · rcases pairLeB_cases h2 with hb | ⟨hb1, hb2, hb3⟩
    · have : p.1.data = q.1.data := strLtB_conn ha1 ha2
      exact pairLeB_of_lt (this ▸ hb)
    · have hpq : p.1.data = q.1.data := strLtB_conn ha1 ha2
      have hqr : q.1.data = r.1.data := strLtB_conn hb1 hb2
      refine pairLeB_of_eq ?_ ?_ (strLtB_le_trans ha3 hb3)
      · rw [hpq, hqr]
        exact strLtB_irrefl _
      · rw [hpq, hqr]
        exact strLtB_irrefl _

instance : IsAntisymm (String × String) pairRel := by
  constructor
  intro p q h1 h2
  unfold pairRel at *
  rcases pairLeB_cases h1 with ha | ⟨ha1, ha2, ha3⟩
  · rcases pairLeB_cases h2 with hb | ⟨_, hb2, _⟩
    · rw [strLtB_asymm ha] at hb
      exact absurd hb Bool.false_ne_true
    · rw [ha] at hb2
      exact absurd hb2 (by simp)
  · rcases pairLeB_cases h2 with hb | ⟨_, _, hb3⟩
    · rw [hb] at ha2
      exact absurd ha2 (by simp)
    · have hk : p.1 = q.1 := str_data_inj (strLtB_conn ha1 ha2)
      have hv : p.2 = q.2 := str_data_inj (strLtB_conn hb3 ha3)
      exact Prod.ext hk hv

instance : IsTotal (String × String) keyRel := by
  constructor
  intro p q
  unfold keyRel strLeB
  by_cases h : strLtB q.1.data p.1.data = true
  · right
    rw [strLtB_asymm h]
    rfl
  · left
    rw [Bool.not_eq_true] at h
    rw [h]
    rfl

instance : IsTrans (String × String) keyRel := by
  constructor
  intro p q r h1 h2
  unfold keyRel strLeB at *
  rw [Bool.not_eq_true'] at h1 h2 ⊢
  exact strLtB_le_trans h1 h2

theorem sortedPairs_perm_input {d₁ d₂ : PyDict} (h : d₁.Perm d₂) :
    sortedPairs d₁ = sortedPairs d₂ := by
  apply List.eq_of_perm_of_sorted (r := pairRel)
  · exact ((List.perm_insertionSort pairRel d₁).trans h).trans
      (List.perm_insertionSort pairRel d₂).symm
  · exact List.sorted_insertionSort pairRel d₁
  · exact List.sorted_insertionSort pairRel d₂

theorem keys_pairwise_ne {d : PyDict} (h : KeysNodup d) :
    d.Pairwise (fun p q => p.1 ≠ q.1) := by
  unfold KeysNodup at h
  rw [List.Nodup, List.pairwise_map] at h
  exact h

theorem sortedPairs_eq_keysorted {d : PyDict} (h : KeysNodup d) :
    sortedPairs d = List.insertionSort keyRel d := by
  apply List.eq_of_perm_of_sorted (r := pairRel)
  · exact (List.perm_insertionSort pairRel d).trans
      (List.perm_insertionSort keyRel d).symm
  · exact List.sorted_insertionSort pairRel d
  · have hs : List.Sorted keyRel (List.insertionSort keyRel d) :=
      List.sorted_insertionSort keyRel d
    have hnd : (List.insertionSort keyRel d).Pairwise (fun p q => p.1 ≠ q.1) := by
      apply keys_pairwise_ne
      unfold KeysNodup
      exact (((List.perm_insertionSort keyRel d).map Prod.fst).nodup_iff).mpr h
    unfold List.Sorted at *
    refine (hs.and hnd).imp ?_
    rintro p q ⟨hle, hne⟩
    unfold keyRel strLeB at hle
    rw [Bool.not_eq_true'] at hle
    unfold pairRel
    apply pairLeB_of_lt
    by_cases hx : strLtB p.1.data q.1.data = true
    · exact hx
    · rw [Bool.not_eq_true] at hx
      exact absurd (str_data_inj (strLtB_conn hx hle)) hne

theorem string_append_assoc (a b c : String) : a ++ b ++ c = a ++ (b ++ c) := by
  cases a; cases b; cases c
  show String.mk _ = String.mk _
  rw [List.append_assoc]

theorem foldl_append_pair : ∀ (l : PyDict) (a : String),
    l.foldl (fun acc p => acc ++ p.1 ++ p.2) a =
      l.foldl (fun acc p => acc ++ (p.1 ++ p.2)) a
  | [], _ => rfl
  | p :: t, a => by
      simp only [List.foldl_cons]
      rw [string_append_assoc, foldl_append_pair t]

theorem paramStringFold_eq (l : PyDict) : paramStringFold l = paramStringJoin l := by
  unfold paramStringFold paramStringJoin
  rw [foldl_append_pair]
  rw [show String.join (l.map fun p => p.1 ++ p.2) =
        (l.map fun p => p.1 ++ p.2).foldl (fun r s => r ++ s) "" from rfl]
  rw [List.foldl_map]

theorem checksumCoreMeth_eq (sk : String) (kwargs : PyDict) :
    checksumCoreMeth sk kwargs = checksumCore sk kwargs := by
  unfold checksumCoreMeth checksumCore
  rw [paramStringFold_eq]

/-! ### C3: the signing algorithm -/

/-- C3 (amended): for every parameter set with distinct keys (a dict
invariant) and every secret key, the checksum operation computes exactly
the spec's algorithm — base64 of the HMAC-SHA1, keyed by the secret key, of
the concatenation of `key ++ value` over the entries sorted by key; the
result depends only on the entry set (determinism: any reordering of the
entries yields the identical string); and the full `checksum` function
removes the `secretkey` entry from the set before signing, so the secret
key's entry never contributes to the signed string.  (The claim's further
assertion that the secret key never occurs as a substring of the output is
false — see the counterexample.) -/
theorem C3_checksum (sk : String) (kwargs : PyDict) (h : KeysNodup kwargs) :
    checksumCore sk kwargs = checksumSpec sk kwargs ∧
    (∀ kwargs₂ : PyDict, kwargs.Perm kwargs₂ →
      checksumCore sk kwargs = checksumCore sk kwargs₂) ∧
    (∀ (cls : MonitisCls) (env : Env) (amb : String),
      resolve_secretkey cls env = .ok amb →
      checksum cls env kwargs =
        .ok (checksumCore ((dlookup "secretkey" kwargs).getD amb)
          (derase "secretkey" kwargs))) := by
  refine ⟨?_, ?_, ?_⟩
  · unfold checksumCore checksumSpec paramStringJoin
    rw [sortedPairs_eq_keysorted h]
  · intro k2 hperm
    unfold checksumCore
    rw [sortedPairs_perm_input hperm]
  · intro cls env amb hres
    unfold checksum
    rw [hres]

/-- C3 counterexample: the secret key can occur in the output signature.
The empty secret key trivially occurs in every output, and the one-character
secret key `"0"` occurs verbatim in its own signature over the spec's test
vector. -/
theorem C3_counterexample :
    (("" : String).data <:+: (checksumCore "" testVector).data) ∧
    (("0" : String).data <:+: (checksumCore "0" testVector).data) := by
  constructor
  · exact List.nil_infix
  · decide

/-- Witness for C3 at the spec's test vector and secret key `"secret"`. -/
theorem C3_checksum_witness :
    KeysNodup testVector ∧
    checksumCore "secret" testVector = checksumSpec "secret" testVector :=
  ⟨by unfold KeysNodup; decide,
    (C3_checksum "secret" testVector (by unfold KeysNodup; decide)).1⟩

/-! ### C10: module-level `checksum` vs `Monitis.checksum` -/

/-- C10 (amended): whenever ambient secret-key resolution succeeds (a class
or environment secret key is configured), the module-level `checksum` and
`Monitis.checksum` agree on every parameter set with an explicitly supplied
`secretkey` entry, both returning the core signature of the remaining
entries under the supplied key.  Without an ambient key the two differ: the
module function evaluates its pop default `resolve_secretkey()` eagerly and
raises even though a key was supplied — see the counterexample. -/
theorem C10_checksum_equiv (cls : MonitisCls) (env : Env) (kwargs : PyDict)
    (selfSk sk amb : String)
    (hexp : dlookup "secretkey" kwargs = some sk)
    (hres : resolve_secretkey cls env = .ok amb) :
    checksum cls env kwargs = Monitis.checksum selfSk cls env kwargs ∧
    checksum cls env kwargs = .ok (checksumCore sk (derase "secretkey" kwargs)) := by
  have h1 : checksum cls env kwargs =
      .ok (checksumCore sk (derase "secretkey" kwargs)) := by
    unfold checksum
    rw [hres, hexp]
    rfl
  have h2 : Monitis.checksum selfSk cls env kwargs =
      .ok (checksumCoreMeth sk (derase "secretkey" kwargs)) := by
    unfold Monitis.checksum
    rw [hexp]
  exact ⟨by rw [h1, h2, checksumCoreMeth_eq], h1⟩

/-- C10 counterexample: with no ambient secret key configured, the module
function raises (its eagerly evaluated pop default runs the resolver) while
the method signs with the explicitly supplied key — the two are not
equivalent. -/
theorem C10_counterexample :
    checksum cls0 envEmpty kwExplicitSk =
      .error ⟨"The Monitis secret key is required"⟩ ∧
    Monitis.checksum "instkey" cls0 envEmpty kwExplicitSk =
      .ok (checksumCoreMeth "abc" [("action", "test")]) ∧
    checksum cls0 envEmpty kwExplicitSk ≠
      Monitis.checksum "instkey" cls0 envEmpty kwExplicitSk := by
  refine ⟨rfl, rfl, ?_⟩
  intro hcon
  have h1 : checksum cls0 envEmpty kwExplicitSk =
      .error ⟨"The Monitis secret key is required"⟩ := rfl
  have h2 : Monitis.checksum "instkey" cls0 envEmpty kwExplicitSk =
      .ok (checksumCoreMeth "abc" [("action", "test")]) := rfl
  rw [h1, h2] at hcon
  exact Except.noConfusion hcon

/-- Witness for C10 with an ambient class-level secret key configured. -/
theorem C10_checksum_equiv_witness :
    dlookup "secretkey" kwExplicitSk = some "abc" ∧
    resolve_secretkey clsWithSecret envEmpty = .ok "ambient" ∧
    checksum clsWithSecret envEmpty kwExplicitSk =
      Monitis.checksum "ik" clsWithSecret envEmpty kwExplicitSk :=
  ⟨rfl, rfl,
    (C10_checksum_equiv clsWithSecret envEmpty kwExplicitSk "ik" "abc" "ambient"
      rfl rfl).1⟩

/-! ### C9: signature sensitivity -/

theorem append_inj_mid {A B x y : List Char} (h : (A ++ x) ++ B = (A ++ y) ++ B) :
    x = y :=
  List.append_cancel_left (List.append_cancel_right h)

theorem sortedPairs_tv (v x y : String) :
    sortedPairs [("action", v), ("apikey", x), ("version", y)] =
      [("action", v), ("apikey", x), ("version", y)] := by
  apply List.Sorted.insertionSort_eq
  refine List.sorted_cons.mpr ⟨?_, List.sorted_cons.mpr ⟨?_, ?_⟩⟩
  · intro b hb
    simp only [List.mem_cons, List.not_mem_nil, or_false] at hb
    rcases hb with rfl | rfl
    · exact pairLeB_of_lt
        (show strLtB "action".data "apikey".data = true by decide)
    · exact pairLeB_of_lt
        (show strLtB "action".data "version".data = true by decide)
  · intro b hb
    simp only [List.mem_cons, List.not_mem_nil, or_false] at hb
    subst hb
    exact pairLeB_of_lt
      (show strLtB "apikey".data "version".data = true by decide)
  · exact List.sorted_singleton _

theorem paramStringJoin_tv (v x y : String) :
    (paramStringJoin [("action", v), ("apikey", x), ("version", y)]).data =
      (("action".data ++ v.data) ++ ("apikey".data ++ x.data)) ++
        ("version".data ++ y.data) := by
  show ((("" ++ ("action" ++ v)) ++ ("apikey" ++ x)) ++ ("version" ++ y)).data = _
  simp only [String.data_append]
  rfl

/-- C9 (amended): over the spec's test vector `{action: "test", apikey:
"abc", version: "2"}`, changing any single parameter value changes the
string that is signed (the concatenation is injective in each value
position — there is no concatenation-level collision), and concrete sample
changes of each value, and of the secret key to another short key, all
produce different signatures.  Changing the secret key does *not* always
change the signature: keys longer than the HMAC block size are hashed
first, so a 65-byte key collides with its own SHA-1 digest — see the
counterexample. -/
theorem C9_sensitivity :
    (∀ v v' : String,
      paramStringJoin (sortedPairs [("action", v), ("apikey", "abc"), ("version", "2")]) =
        paramStringJoin (sortedPairs [("action", v'), ("apikey", "abc"), ("version", "2")]) →
      v = v') ∧
    (∀ v v' : String,
      paramStringJoin (sortedPairs [("action", "test"), ("apikey", v), ("version", "2")]) =
        paramStringJoin (sortedPairs [("action", "test"), ("apikey", v'), ("version", "2")]) →
      v = v') ∧
    (∀ v v' : String,
      paramStringJoin (sortedPairs [("action", "test"), ("apikey", "abc"), ("version", v)]) =
        paramStringJoin (sortedPairs [("action", "test"), ("apikey", "abc"), ("version", v')]) →
      v = v') ∧
    checksumCore "secret" testVector ≠
      checksumCore "secret" [("action", "test2"), ("apikey", "abc"), ("version", "2")] ∧
    checksumCore "secret" testVector ≠
      checksumCore "secret" [("action", "test"), ("apikey", "abd"), ("version", "2")] ∧
    checksumCore "secret" testVector ≠
      checksumCore "secret" [("action", "test"), ("apikey", "abc"), ("version", "3")] ∧
    checksumCore "secret" testVector ≠ checksumCore "secret2" testVector := by
  refine ⟨?_, ?_, ?_, by decide, by decide, by decide, by decide⟩
  · intro v v' h
    rw [sortedPairs_tv, sortedPairs_tv] at h
    have h' := congrArg String.data h
    rw [paramStringJoin_tv, paramStringJoin_tv] at h'
    exact str_data_inj (List.append_cancel_left
      (List.append_cancel_right (List.append_cancel_right h')))
  · intro v v' h
    rw [sortedPairs_tv, sortedPairs_tv] at h
    have h' := congrArg String.data h
    rw [paramStringJoin_tv, paramStringJoin_tv] at h'
    exact str_data_inj (List.append_cancel_left
      (List.append_cancel_left (List.append_cancel_right h')))
  · intro v v' h
    rw [sortedPairs_tv, sortedPairs_tv] at h
    have h' := congrArg String.data h
    rw [paramStringJoin_tv, paramStringJoin_tv] at h'
    exact str_data_inj (List.append_cancel_left (List.append_cancel_left h'))

/-- C9 counterexample: two different secret keys with the identical
signature over the test vector — a 65-byte key and its own 20-byte SHA-1
digest (RFC 2104 hashes overlong keys before use). -/
theorem C9_counterexample :
    keyLong ≠ keyLongDigest ∧
    checksumCore keyLong testVector = checksumCore keyLongDigest testVector := by
  constructor
  · decide
  · decide

/-- Witness for C9's injectivity hypotheses at a concrete value. -/
theorem C9_sensitivity_witness :
    paramStringJoin (sortedPairs [("action", "x"), ("apikey", "abc"), ("version", "2")]) =
      paramStringJoin (sortedPairs [("action", "x"), ("apikey", "abc"), ("version", "2")]) ∧
    ("x" : String) = "x" :=
  ⟨rfl, C9_sensitivity.1 "x" "x" rfl⟩

/-! ### C4: credential resolution -/

theorem truthy_false_some {a : String} (h : truthy (some a) = false) : a = "" := by
  unfold truthy at h
  simpa using h

theorem pyOrE_of_falsy {a : Option String} {b : Except MonitisError String}
    (h : truthy a = false) : pyOrE a b = b := by
  cases a with
  | none => rfl
  | some s =>
      have hs : s = "" := truthy_false_some h
      show (if s = "" then b else .ok s) = b
      exact if_pos hs

theorem pyOrE_of_truthy {s : String} (hne : s ≠ "")
    (b : Except MonitisError String) : pyOrE (some s) b = .ok s := by
  show (if s = "" then b else .ok s) = .ok s
  exact if_neg hne

/-- C4 (amended): the API key and secret key are resolved independently
through the chain explicit argument → instance attribute → class attribute
→ mode-selected environment variable, but with Python's actual semantics:
at the explicit-argument level truthiness applies (`None` and `''` fall
through), while at the instance/class/environment levels the *first value
that is not `None`* wins — an empty string configured there wins despite
being empty (the claim's "first non-empty value" is refuted by the
counterexample).  If no level yields a value, resolution fails with the
distinct errors `'The Monitis API key is required'` and
`'The Monitis secret key is required'`. -/
theorem C4_resolution (arg instAttr : Option String) (cls : MonitisCls) (env : Env) :
    (∀ s, arg = some s → s ≠ "" → apikeyChain arg instAttr cls env = .ok s) ∧
    (truthy arg = false → ∀ s, instAttr = some s →
      apikeyChain arg instAttr cls env = .ok s) ∧
    (truthy arg = false → instAttr = none → ∀ s, cls.apikey = some s →
      apikeyChain arg instAttr cls env = .ok s) ∧
    (truthy arg = false → instAttr = none → cls.apikey = none → ∀ s,
      environ_key (if cls.sandbox then "MONITIS_SANDBOX_APIKEY" else "MONITIS_APIKEY") env = some s →
      apikeyChain arg instAttr cls env = .ok s) ∧
    (truthy arg = false → instAttr = none → cls.apikey = none →
      environ_key (if cls.sandbox then "MONITIS_SANDBOX_APIKEY" else "MONITIS_APIKEY") env = none →
      apikeyChain arg instAttr cls env = .error ⟨"The Monitis API key is required"⟩) ∧
    (∀ s, arg = some s → s ≠ "" → secretkeyChain arg instAttr cls env = .ok s) ∧
    (truthy arg = false → ∀ s, instAttr = some s →
      secretkeyChain arg instAttr cls env = .ok s) ∧
    (truthy arg = false → instAttr = none → ∀ s, cls.secretkey = some s →
      secretkeyChain arg instAttr cls env = .ok s) ∧
    (truthy arg = false → instAttr = none → cls.secretkey = none → ∀ s,
      environ_key (if cls.sandbox then "MONITIS_SANDBOX_SECRETKEY" else "MONITIS_SECRETKEY") env = some s →
      secretkeyChain arg instAttr cls env = .ok s) ∧
    (truthy arg = false → instAttr = none → cls.secretkey = none →
      environ_key (if cls.sandbox then "MONITIS_SANDBOX_SECRETKEY" else "MONITIS_SECRETKEY") env = none →
      secretkeyChain arg instAttr cls env = .error ⟨"The Monitis secret key is required"⟩) ∧
    (⟨"The Monitis API key is required"⟩ : MonitisError) ≠
      ⟨"The Monitis secret key is required"⟩ := by
  refine ⟨?_, ?_, ?_, ?_, ?_, ?_, ?_, ?_, ?_, ?_, by decide⟩
  · rintro s rfl hne
    exact pyOrE_of_truthy hne _
  · rintro ht s rfl
    unfold apikeyChain
    rw [pyOrE_of_falsy ht]
    rfl
  · rintro ht rfl s hc
    unfold apikeyChain
    rw [pyOrE_of_falsy ht, Option.none_orElse, hc]
    rfl
  · rintro ht rfl hc s he
    unfold apikeyChain
    rw [pyOrE_of_falsy ht, Option.none_orElse, hc]
    unfold Monitis.resolve_apikey resolveApikeyModule resolve_apikey
    simp only [hc, he]
  · rintro ht rfl hc he
    unfold apikeyChain
    rw [pyOrE_of_falsy ht, Option.none_orElse, hc]
    unfold Monitis.resolve_apikey resolveApikeyModule resolve_apikey
    simp only [hc, he]
  · rintro s rfl hne
    exact pyOrE_of_truthy hne _
  · rintro ht s rfl
    unfold secretkeyChain
    rw [pyOrE_of_falsy ht]
    rfl
  · rintro ht rfl s hc
    unfold secretkeyChain
    rw [pyOrE_of_falsy ht, Option.none_orElse, hc]
    rfl
  · rintro ht rfl hc s he
    unfold secretkeyChain
    rw [pyOrE_of_falsy ht, Option.none_orElse, hc]
    unfold Monitis.resolve_secretkey resolveSecretkeyModule resolve_secretkey
    simp only [hc, he]
  · rintro ht rfl hc he
    unfold secretkeyChain
    rw [pyOrE_of_falsy ht, Option.none_orElse, hc]
    unfold Monitis.resolve_secretkey resolveSecretkeyModule resolve_secretkey
    simp only [hc, he]

/-- C4 counterexample: with an empty string configured at the class level
and a real key in the environment, resolution returns the empty class value,
not the first non-empty value (the environment's `"envkey"`). -/
theorem C4_counterexample :
    apikeyChain none none clsEmptyApikey envProdKey = .ok "" ∧
    firstNonEmptySpec [none, none, clsEmptyApikey.apikey,
      envProdKey "MONITIS_APIKEY"] = some "envkey" ∧
    ("" : String) ≠ "envkey" :=
  ⟨rfl, rfl, by decide⟩

/-- Witness for C4 at the class level. -/
theorem C4_resolution_witness :
    truthy none = false ∧ clsEmptyApikey.apikey = some "" ∧
    apikeyChain none none clsEmptyApikey envEmpty = .ok "" :=
  ⟨rfl, rfl,
    (C4_resolution none none clsEmptyApikey envEmpty).2.2.1 rfl rfl "" rfl⟩

/-! ### C7: GET validation before any network attempt -/

theorem resolve_apikey_error {cls : MonitisCls} {env : Env} {e : MonitisError}
    (h : resolve_apikey cls env = .error e) :
    e = ⟨"The Monitis API key is required"⟩ := by
  unfold resolve_apikey environ_key at h
  cases hc : cls.apikey with
  | some k => rw [hc] at h; exact Except.noConfusion h
  | none =>
      rw [hc] at h
      cases he : env (if cls.sandbox = true then "MONITIS_SANDBOX_APIKEY" else "MONITIS_APIKEY") with
      | some k => rw [he] at h; exact Except.noConfusion h
      | none =>
          rw [he] at h
          exact (Except.error.inj h).symm

theorem pyOrE_error {a : Option String} {b : Except MonitisError String}
    {e : MonitisError} (h : pyOrE a b = .error e) : b = .error e := by
  cases a with
  | none => exact h
  | some s =>
      have h' : (if s = "" then b else Except.ok s) = .error e := h
      by_cases hs : s = ""
      · rw [if_pos hs] at h'; exact h'
      · rw [if_neg hs] at h'; exact Except.noConfusion h' 

/-- C7: every GET call in which the API key resolves to nothing (the chain
raises, or produces the empty string) or the action name is absent fails
with a distinct `MonitisError` for each case; the result is an `.error`,
meaning the `HttpRequest` is never built — the transport is never
invoked. -/
theorem C7_get_validation (cls : MonitisCls) (env : Env)
    (apikey action : Option String) (version : String) (url : Option String)
    (kwargs : PyDict) (raw : Bool) (body : String) :
    (∀ e, pyOrE apikey (resolve_apikey cls env) = .error e →
      get cls env apikey action version url kwargs raw body = .error e ∧
      e = ⟨"The Monitis API key is required"⟩) ∧
    (pyOrE apikey (resolve_apikey cls env) = .ok "" →
      get cls env apikey action version url kwargs raw body =
        .error ⟨"get: apikey is required"⟩) ∧
    (∀ s, pyOrE apikey (resolve_apikey cls env) = .ok s → s ≠ "" →
      truthy action = false →
      get cls env apikey action version url kwargs raw body =
        .error ⟨"get: action is required"⟩) ∧
    (⟨"The Monitis API key is required"⟩ : MonitisError) ≠
      ⟨"get: action is required"⟩ ∧
    (⟨"get: apikey is required"⟩ : MonitisError) ≠ ⟨"get: action is required"⟩ := by
  refine ⟨?_, ?_, ?_, by decide, by decide⟩
  · intro e he
    refine ⟨?_, resolve_apikey_error (pyOrE_error he)⟩
    rw [get.eq_def]
    simp only [he]
  · intro h
    rw [get.eq_def]
    simp only [h]
    rfl
  · intro s hok hs ha
    rw [get.eq_def]
    simp only [hok, if_neg hs, ha, Bool.not_false, if_true]

/-- Witness for C7: no key anywhere, and a present key with missing
action. -/
theorem C7_get_validation_witness :
    pyOrE none (resolve_apikey cls0 envEmpty) =
      .error ⟨"The Monitis API key is required"⟩ ∧
    get cls0 envEmpty none (some "agents") "2" none [] false "[]" =
      .error ⟨"The Monitis API key is required"⟩ ∧
    get cls0 envEmpty (some "k") none "2" none [] false "[]" =
      .error ⟨"get: action is required"⟩ :=
  ⟨rfl,
    ((C7_get_validation cls0 envEmpty none (some "agents") "2" none [] false
      "[]").1 _ rfl).1,
    (C7_get_validation cls0 envEmpty (some "k") none "2" none [] false "[]").2.2.1
      "k" rfl (by decide) rfl⟩

/-! ### Association-list permutation lemmas (claims C1/C2) -/

theorem dlookup_none_not_mem {k : String} {d : PyDict}
    (h : dlookup k d = none) : ∀ p ∈ d, p.1 ≠ k := by
  intro p hp
  unfold dlookup at h
  rw [Option.map_eq_none'] at h
  rw [List.find?_eq_none] at h
  have := h p hp
  simpa using this

theorem derase_of_no_key {k : String} {d : PyDict}
    (h : ∀ p ∈ d, p.1 ≠ k) : derase k d = d := by
  unfold derase
  rw [List.filter_eq_self]
  intro p hp
  simpa using h p hp

theorem dlookup_some_split {k v : String} : ∀ {d : PyDict},
    dlookup k d = some v →
    ∃ u w, d = u ++ (k, v) :: w ∧ ∀ p ∈ u, p.1 ≠ k := by
  intro d
  induction d with
  | nil => intro h; simp [dlookup] at h
  | cons p t ih =>
      obtain ⟨a, b⟩ := p
      intro h
      by_cases hak : a = k
      · subst hak
        rw [dlookup_cons, if_pos rfl] at h
        obtain rfl : b = v := Option.some.inj h
        exact ⟨[], t, rfl, by simp⟩
      · rw [dlookup_cons, if_neg hak] at h
        obtain ⟨u, w, rfl, hu⟩ := ih h
        refine ⟨(a, b) :: u, w, rfl, ?_⟩
        intro q hq
        rcases List.mem_cons.mp hq with rfl | hq'
        · exact hak
        · exact hu q hq'

theorem dlookup_append_right {k : String} {u : PyDict}
    (h : ∀ p ∈ u, p.1 ≠ k) (w : PyDict) :
    dlookup k (u ++ w) = dlookup k w := by
  rw [dlookup_append, dlookup_of_keysNodup_not_mem h]
  rfl

theorem perm_of_lookup_eq : ∀ {d₁ d₂ : PyDict}, KeysNodup d₁ → KeysNodup d₂ →
    (∀ k, dlookup k d₁ = dlookup k d₂) → d₁.Perm d₂ := by
  intro d₁
  induction d₁ with
  | nil =>
      intro d₂ _ _ h
      cases d₂ with
      | nil => exact List.Perm.refl _
      | cons p t =>
          obtain ⟨a, b⟩ := p
          have := h a
          rw [dlookup_cons, if_pos rfl] at this
          simp [dlookup] at this
  | cons p t ih =>
      obtain ⟨a, b⟩ := p
      intro d₂ h1 h2 h
      have ha : dlookup a d₂ = some b := by
        rw [← h a, dlookup_cons, if_pos rfl]
      obtain ⟨u, w, rfl, hu⟩ := dlookup_some_split ha
      have h1' : KeysNodup t := by
        unfold KeysNodup at h1 ⊢
        simp only [List.map_cons, List.nodup_cons] at h1
        exact h1.2
      have hanott : ∀ p ∈ t, p.1 ≠ a := by
        intro q hq
        unfold KeysNodup at h1
        simp only [List.map_cons, List.nodup_cons] at h1
        intro hqa
        exact h1.1 (List.mem_map.mpr ⟨q, hq, hqa⟩)
      have hanotw : ∀ p ∈ w, p.1 ≠ a := by
        intro q hq
        unfold KeysNodup at h2
        rw [List.map_append, List.nodup_append] at h2
        have := h2.2.1
        simp only [List.map_cons, List.nodup_cons] at this
        intro hqa
        exact this.1 (List.mem_map.mpr ⟨q, hq, hqa⟩)
      have h2' : KeysNodup (u ++ w) := by
        unfold KeysNodup at h2 ⊢
        rw [List.map_append, List.nodup_append] at h2 ⊢
        obtain ⟨hnu, hnw, hdisj⟩ := h2
        simp only [List.map_cons, List.nodup_cons] at hnw
        refine ⟨hnu, hnw.2, ?_⟩
        intro x hx hy
        exact hdisj hx (by simp [hy])
      have hlook : ∀ k, dlookup k t = dlookup k (u ++ w) := by
        intro k
        by_cases hka : k = a
        · subst hka
          rw [dlookup_of_keysNodup_not_mem hanott,
            dlookup_append_right hu, dlookup_of_keysNodup_not_mem hanotw]
        · have := h k
          rw [dlookup_cons, if_neg (fun hh => hka hh.symm)] at this
          rw [this, dlookup_append, dlookup_append, dlookup_cons,
            if_neg (fun hh => hka hh.symm)]
      exact ((ih h1' h2' hlook).cons (a, b)).trans List.perm_middle.symm

theorem mem_dinsert {p : String × String} {k v : String} {d : PyDict}
    (h : p ∈ dinsert k v d) : p = (k, v) ∨ (p ∈ d ∧ p.1 ≠ k) := by
  unfold dinsert derase at h
  rcases List.mem_append.mp h with h' | h'
  · right
    have hm := List.mem_of_mem_filter h'
    have hf := List.of_mem_filter h'
    simp only [bne_iff_ne, ne_eq] at hf
    exact ⟨hm, hf⟩
  · left
    simpa using h'

/-! ### POST inversion lemmas and C2 -/

theorem post_ok_inv {cls : MonitisCls} {env : Env}
    {apikey secretkey action : Option String} {version : String}
    {url : Option String} {kwargs : PyDict} {raw : Bool} {ts body : String}
    {req : HttpRequest} {val : PyVal}
    (h : post cls env apikey secretkey action version url kwargs raw ts body =
      .ok (req, val)) :
    ∃ key sk sig,
      pyOrE apikey (resolve_apikey cls env) = .ok key ∧
      pyOrE secretkey (resolve_secretkey cls env) = .ok sk ∧
      checksum cls env (dinsert "secretkey" sk (dinsert "timestamp" ts
        (dinsert "version" version (dinsert "action" (action.getD "")
          (dinsert "apikey" key kwargs))))) = .ok sig ∧
      req = ⟨pyOrS url (api_url cls), dinsert "checksum" sig (dinsert "timestamp" ts
        (dinsert "version" version (dinsert "action" (action.getD "")
          (dinsert "apikey" key kwargs))))⟩ := by
  rw [post.eq_def] at h
  cases hk : pyOrE apikey (resolve_apikey cls env) with
  | error e =>
      simp only [hk] at h
      exact Except.noConfusion h
  | ok key =>
      simp only [hk] at h
      cases hs : pyOrE secretkey (resolve_secretkey cls env) with
      | error e =>
          simp only [hs] at h
          exact Except.noConfusion h
      | ok sk =>
          simp only [hs] at h
          cases hact : truthy action with
          | false =>
              simp only [hact, Bool.not_false, if_true] at h
              exact Except.noConfusion h
          | true =>
              simp only [hact, Bool.not_true, Bool.false_eq_true, if_false] at h
              cases hc : checksum cls env (dinsert "secretkey" sk
                  (dinsert "timestamp" ts (dinsert "version" version
                    (dinsert "action" (action.getD "")
                      (dinsert "apikey" key kwargs))))) with
              | error e =>
                  simp only [hc] at h
                  exact Except.noConfusion h
              | ok sig =>
                  simp only [hc] at h
                  refine ⟨key, sk, sig, rfl, rfl, hc, ?_⟩
                  cases hr : raw with
                  | true =>
                      simp only [hr, if_true, Except.ok.injEq, Prod.mk.injEq] at h
                      exact h.1.symm
                  | false =>
                      simp only [hr, Bool.false_eq_true, if_false] at h
                      cases hd : decode_json body with
                      | error e =>
                          simp only [hd] at h
                          exact Except.noConfusion h
                      | ok j =>
                          simp only [hd, Except.ok.injEq, Prod.mk.injEq] at h
                          exact h.1.symm

theorem monitis_post_ok_inv {self : Monitis} {cls : MonitisCls} {env : Env}
    {kwargs : PyDict} {ts body : String} {req : HttpRequest} {val : PyVal}
    (h : Monitis.post self cls env kwargs ts body = .ok (req, val)) :
    ∃ sig,
      Monitis.checksum self.secretkey cls env (dinsert "timestamp" ts
        (dinsert "version" self.version (dinsert "apikey" self.apikey kwargs))) =
        .ok sig ∧
      req = ⟨self.url, dinsert "checksum" sig (dinsert "timestamp" ts
        (dinsert "version" self.version (dinsert "apikey" self.apikey kwargs)))⟩ ∧
      val = .pyStr body := by
  rw [Monitis.post.eq_def] at h
  cases hc : Monitis.checksum self.secretkey cls env (dinsert "timestamp" ts
      (dinsert "version" self.version (dinsert "apikey" self.apikey kwargs))) with
  | error e =>
      simp only [hc] at h
      exact Except.noConfusion h
  | ok sig =>
      simp only [hc, Except.ok.injEq, Prod.mk.injEq] at h
      exact ⟨sig, rfl, h.1.symm, h.2.symm⟩

/-- C2 (amended): every successful call of the free-function `post` submits
a parameter set carrying `apikey` (the resolved key), `action`, `version`,
`timestamp` and `checksum`, all from the final parameter set built for the
call.  A successful `Monitis.post` call submits `apikey`, `version`,
`timestamp` and `checksum` from instance state and the final set, but the
`action` key is present only if the caller supplied it among the keyword
arguments (the method never adds or checks it — see the counterexample);
the method also returns the raw body. -/
theorem C2_post_params (cls : MonitisCls) (env : Env)
    (apikey secretkey action : Option String) (version : String)
    (url : Option String) (kwargs : PyDict) (raw : Bool) (ts body : String) :
    (∀ req val,
      post cls env apikey secretkey action version url kwargs raw ts body =
        .ok (req, val) →
      ∃ key sig,
        pyOrE apikey (resolve_apikey cls env) = .ok key ∧
        dlookup "apikey" req.params = some key ∧
        dlookup "action" req.params = some (action.getD "") ∧
        dlookup "version" req.params = some version ∧
        dlookup "timestamp" req.params = some ts ∧
        dlookup "checksum" req.params = some sig) ∧
    (∀ (self : Monitis) req val,
      Monitis.post self cls env kwargs ts body = .ok (req, val) →
      dlookup "apikey" req.params = some self.apikey ∧
      dlookup "version" req.params = some self.version ∧
      dlookup "timestamp" req.params = some ts ∧
      (∃ sig, dlookup "checksum" req.params = some sig) ∧
      dlookup "action" req.params = dlookup "action" kwargs ∧
      val = .pyStr body) := by
  constructor
  · intro req val h
    obtain ⟨key, sk, sig, hk, _, _, hreq⟩ := post_ok_inv h
    subst hreq
    refine ⟨key, sig, hk, ?_, ?_, ?_, ?_, ?_⟩
    · rw [dlookup_dinsert_ne (by decide), dlookup_dinsert_ne (by decide),
        dlookup_dinsert_ne (by decide), dlookup_dinsert_ne (by decide),
        dlookup_dinsert_self]
    · rw [dlookup_dinsert_ne (by decide), dlookup_dinsert_ne (by decide),
        dlookup_dinsert_ne (by decide), dlookup_dinsert_self]
    · rw [dlookup_dinsert_ne (by decide), dlookup_dinsert_ne (by decide),
        dlookup_dinsert_self]
    · rw [dlookup_dinsert_ne (by decide), dlookup_dinsert_self]
    · rw [dlookup_dinsert_self]
  · intro self req val h
    obtain ⟨sig, _, hreq, hval⟩ := monitis_post_ok_inv h
    subst hreq
    refine ⟨?_, ?_, ?_, ⟨sig, ?_⟩, ?_, hval⟩
    · rw [dlookup_dinsert_ne (by decide), dlookup_dinsert_ne (by decide),
        dlookup_dinsert_ne (by decide), dlookup_dinsert_self]
    · rw [dlookup_dinsert_ne (by decide), dlookup_dinsert_ne (by decide),
        dlookup_dinsert_self]
    · rw [dlookup_dinsert_ne (by decide), dlookup_dinsert_self]
    · rw [dlookup_dinsert_self]
    · rw [dlookup_dinsert_ne (by decide), dlookup_dinsert_ne (by decide),
        dlookup_dinsert_ne (by decide), dlookup_dinsert_ne (by decide)]

/-- C2 counterexample: a `Monitis.post` call with no `action` keyword
succeeds and submits a parameter set with no `action` key, while the free
function refuses the same call. -/
theorem C2_counterexample :
    (Monitis.post inst0 clsWithSecret envEmpty [] "ts" "{}").toOption.map
      (fun r => dlookup "action" r.1.params) = some none ∧
    post clsWithSecret envEmpty (some "abc") (some "secret") none "2"
      (some "http://monitis.com/api") [] false "ts" "{}" =
      .error ⟨"post: action is required"⟩ :=
  ⟨rfl, rfl⟩

/-- Witness for C2 at a concrete successful free-function POST. -/
theorem C2_post_params_witness :
    post clsWithSecret envEmpty (some "abc") (some "secret") (some "test") "2"
        none [] true "ts" "{}" =
      .ok (⟨"http://monitis.com/api",
        dinsert "checksum"
          (checksumCore "secret" (dinsert "timestamp" "ts" (dinsert "version" "2"
            (dinsert "action" "test" (dinsert "apikey" "abc" [])))))
          (dinsert "timestamp" "ts" (dinsert "version" "2"
            (dinsert "action" "test" (dinsert "apikey" "abc" []))))⟩,
        .rawResponse "{}") ∧
    (∃ key sig,
      pyOrE (some "abc") (resolve_apikey clsWithSecret envEmpty) = .ok key ∧
      dlookup "apikey" (dinsert "checksum"
          (checksumCore "secret" (dinsert "timestamp" "ts" (dinsert "version" "2"
            (dinsert "action" "test" (dinsert "apikey" "abc" [])))))
          (dinsert "timestamp" "ts" (dinsert "version" "2"
            (dinsert "action" "test" (dinsert "apikey" "abc" []))))) = some key ∧
      dlookup "action" (dinsert "checksum"
          (checksumCore "secret" (dinsert "timestamp" "ts" (dinsert "version" "2"
            (dinsert "action" "test" (dinsert "apikey" "abc" [])))))
          (dinsert "timestamp" "ts" (dinsert "version" "2"
            (dinsert "action" "test" (dinsert "apikey" "abc" []))))) =
        some ((some "test").getD "") ∧
      dlookup "version" (dinsert "checksum"
          (checksumCore "secret" (dinsert "timestamp" "ts" (dinsert "version" "2"
            (dinsert "action" "test" (dinsert "apikey" "abc" [])))))
          (dinsert "timestamp" "ts" (dinsert "version" "2"
            (dinsert "action" "test" (dinsert "apikey" "abc" []))))) = some "2" ∧
      dlookup "timestamp" (dinsert "checksum"
          (checksumCore "secret" (dinsert "timestamp" "ts" (dinsert "version" "2"
            (dinsert "action" "test" (dinsert "apikey" "abc" [])))))
          (dinsert "timestamp" "ts" (dinsert "version" "2"
            (dinsert "action" "test" (dinsert "apikey" "abc" []))))) = some "ts" ∧
      dlookup "checksum" (dinsert "checksum"
          (checksumCore "secret" (dinsert "timestamp" "ts" (dinsert "version" "2"
            (dinsert "action" "test" (dinsert "apikey" "abc" [])))))
          (dinsert "timestamp" "ts" (dinsert "version" "2"
            (dinsert "action" "test" (dinsert "apikey" "abc" []))))) = some sig) := by
  refine ⟨rfl, ?_⟩
  have h := (C2_post_params clsWithSecret envEmpty (some "abc") (some "secret")
    (some "test") "2" none [] true "ts" "{}").1 _ _ rfl
  simpa using h

/-! ### C1: the bound-instance POST -/

theorem checksum_eval {cls : MonitisCls} {env : Env} {kwargs : PyDict}
    {amb : String} (hres : resolve_secretkey cls env = .ok amb) :
    checksum cls env kwargs =
      .ok (checksumCore ((dlookup "secretkey" kwargs).getD amb)
        (derase "secretkey" kwargs)) := by
  unfold checksum
  rw [hres]

theorem pyOrS_of_truthy {s : String} (h : s ≠ "") (d : String) :
    pyOrS (some s) d = s := by
  show (if s = "" then d else s) = s
  exact if_neg h

theorem monitis_post_ok {self : Monitis} {cls : MonitisCls} {env : Env}
    {kwargs : PyDict} {ts body : String}
    (hself : self.secretkey ≠ "") (hsk : dlookup "secretkey" kwargs = none) :
    Monitis.post self cls env kwargs ts body =
      .ok (⟨self.url, dinsert "checksum"
        (checksumCoreMeth self.secretkey (dinsert "timestamp" ts
          (dinsert "version" self.version (dinsert "apikey" self.apikey kwargs))))
        (dinsert "timestamp" ts (dinsert "version" self.version
          (dinsert "apikey" self.apikey kwargs)))⟩, .pyStr body) := by
  rw [Monitis.post.eq_def]
  have hlook : dlookup "secretkey" (dinsert "timestamp" ts
      (dinsert "version" self.version (dinsert "apikey" self.apikey kwargs))) = none := by
    rw [dlookup_dinsert_ne (by decide), dlookup_dinsert_ne (by decide),
      dlookup_dinsert_ne (by decide), hsk]
  have hc : Monitis.checksum self.secretkey cls env (dinsert "timestamp" ts
      (dinsert "version" self.version (dinsert "apikey" self.apikey kwargs))) =
      .ok (checksumCoreMeth self.secretkey (dinsert "timestamp" ts
        (dinsert "version" self.version (dinsert "apikey" self.apikey kwargs)))) := by
    unfold Monitis.checksum
    rw [hlook, if_neg hself]
  simp only [hc]

theorem postargs_lookup_eq {kwargs : PyDict} {a A V ts : String}
    (ha : dlookup "action" kwargs = some a) :
    ∀ k, dlookup k (dinsert "timestamp" ts (dinsert "version" V
        (dinsert "action" a (dinsert "apikey" A (derase "action" kwargs))))) =
      dlookup k (dinsert "timestamp" ts (dinsert "version" V
        (dinsert "apikey" A kwargs))) := by
  intro k
  by_cases h1 : k = "timestamp"
  · subst h1
    rw [dlookup_dinsert_self, dlookup_dinsert_self]
  · rw [dlookup_dinsert_ne (fun hh => h1 hh.symm),
      dlookup_dinsert_ne (fun hh => h1 hh.symm)]
    by_cases h2 : k = "version"
    · subst h2
      rw [dlookup_dinsert_self, dlookup_dinsert_self]
    · rw [dlookup_dinsert_ne (fun hh => h2 hh.symm),
        dlookup_dinsert_ne (fun hh => h2 hh.symm)]
      by_cases h3 : k = "action"
      · subst h3
        rw [dlookup_dinsert_self, dlookup_dinsert_ne (by decide)]
        exact ha.symm
      · rw [dlookup_dinsert_ne (fun hh => h3 hh.symm)]
        by_cases h4 : k = "apikey"
        · subst h4
          rw [dlookup_dinsert_self, dlookup_dinsert_self]
        · rw [dlookup_dinsert_ne (fun hh => h4 hh.symm),
            dlookup_dinsert_ne (fun hh => h4 hh.symm)]
          exact dlookup_derase_ne (fun hh => h3 hh.symm) kwargs

/-- C1 (amended): for a caller that supplies a non-empty `action` among the
keyword arguments (and no `secretkey` keyword), a facade instance with
non-empty credentials and URL, and a configured ambient secret key (which
the free function's eager checksum default demands), `Monitis.post` draws
`apikey`/`secretkey`/`version`/endpoint from instance state and submits the
same parameter set — entry for entry — as the free-function `post` called
with those instance values; but it returns the raw response body string
(`ret`), never the decoded JSON, performs no action check and has no raw
mode (see the counterexample for the decoded-vs-raw divergence). -/
theorem C1_facade_post (self : Monitis) (cls : MonitisCls) (env : Env)
    (kwargs : PyDict) (ts body a amb : String)
    (hnd : KeysNodup kwargs)
    (hsknone : dlookup "secretkey" kwargs = none)
    (ha : dlookup "action" kwargs = some a) (ha' : a ≠ "")
    (hkey : self.apikey ≠ "") (hself : self.secretkey ≠ "") (hurl : self.url ≠ "")
    (hres : resolve_secretkey cls env = .ok amb) :
    Monitis.post self cls env kwargs ts body =
      .ok (⟨self.url, dinsert "checksum"
        (checksumCoreMeth self.secretkey (dinsert "timestamp" ts
          (dinsert "version" self.version (dinsert "apikey" self.apikey kwargs))))
        (dinsert "timestamp" ts (dinsert "version" self.version
          (dinsert "apikey" self.apikey kwargs)))⟩, .pyStr body) ∧
    (∀ req val,
      post cls env (some self.apikey) (some self.secretkey) (some a)
        self.version (some self.url) (derase "action" kwargs) false ts body =
        .ok (req, val) →
      req.url = self.url ∧
      (∀ k, dlookup k req.params = dlookup k (dinsert "checksum"
        (checksumCoreMeth self.secretkey (dinsert "timestamp" ts
          (dinsert "version" self.version (dinsert "apikey" self.apikey kwargs))))
        (dinsert "timestamp" ts (dinsert "version" self.version
          (dinsert "apikey" self.apikey kwargs)))))) := by
  refine ⟨monitis_post_ok hself hsknone, ?_⟩
  intro req val hf
  obtain ⟨key, sk, sigF, hk, hs, hcF, hreq⟩ := post_ok_inv hf
  rw [pyOrS_of_truthy hurl] at hreq
  have hkey' : key = self.apikey := by
    rw [pyOrE_of_truthy hkey] at hk
    exact (Except.ok.inj hk).symm
  have hsk' : sk = self.secretkey := by
    rw [pyOrE_of_truthy hself] at hs
    exact (Except.ok.inj hs).symm
  subst hkey'
  subst hsk'
  -- the parameter set the free function signs and submits
  have hnosk : ∀ p ∈ (dinsert "timestamp" ts (dinsert "version" self.version
      (dinsert "action" ((some a).getD "") (dinsert "apikey" self.apikey
        (derase "action" kwargs))))), p.1 ≠ "secretkey" := by
    apply dlookup_none_not_mem
    rw [dlookup_dinsert_ne (by decide), dlookup_dinsert_ne (by decide),
      dlookup_dinsert_ne (by decide), dlookup_dinsert_ne (by decide),
      dlookup_derase_ne (by decide)]
    exact hsknone
  have hsigF : sigF = checksumCore self.secretkey (dinsert "timestamp" ts
      (dinsert "version" self.version (dinsert "action" ((some a).getD "")
        (dinsert "apikey" self.apikey (derase "action" kwargs))))) := by
    rw [checksum_eval hres] at hcF
    rw [dlookup_dinsert_self] at hcF
    rw [derase_dinsert_self] at hcF
    rw [derase_of_no_key hnosk] at hcF
    exact (Except.ok.inj hcF).symm
  have hndF : KeysNodup (dinsert "timestamp" ts (dinsert "version" self.version
      (dinsert "action" ((some a).getD "") (dinsert "apikey" self.apikey
        (derase "action" kwargs))))) :=
    keysNodup_dinsert _ _ (keysNodup_dinsert _ _ (keysNodup_dinsert _ _
      (keysNodup_dinsert _ _ (keysNodup_derase _ hnd))))
  have hndM : KeysNodup (dinsert "timestamp" ts (dinsert "version" self.version
      (dinsert "apikey" self.apikey kwargs))) :=
    keysNodup_dinsert _ _ (keysNodup_dinsert _ _ (keysNodup_dinsert _ _ hnd))
  have hcoreEq : checksumCore self.secretkey (dinsert "timestamp" ts
      (dinsert "version" self.version (dinsert "action" ((some a).getD "")
        (dinsert "apikey" self.apikey (derase "action" kwargs))))) =
      checksumCoreMeth self.secretkey (dinsert "timestamp" ts
        (dinsert "version" self.version (dinsert "apikey" self.apikey kwargs))) := by
    rw [checksumCoreMeth_eq]
    unfold checksumCore
    rw [sortedPairs_perm_input (perm_of_lookup_eq hndF hndM (postargs_lookup_eq ha))]
  subst hreq
  refine ⟨rfl, ?_⟩
  intro k
  show dlookup k (dinsert "checksum" sigF _) = _
  by_cases hk' : k = "checksum"
  · subst hk'
    rw [dlookup_dinsert_self, dlookup_dinsert_self, hsigF, hcoreEq]
  · rw [dlookup_dinsert_ne (fun hh => hk' hh.symm),
      dlookup_dinsert_ne (fun hh => hk' hh.symm)]
    exact postargs_lookup_eq ha k

/-- C1 counterexample: on response body `"\"a\""` the facade method returns
the raw three-character body string, while the decoded JSON value of that
body (what the free function returns) is the one-character string `a` — the
method does not return the decoded JSON. -/
theorem C1_counterexample :
    (Monitis.post inst0 clsWithSecret envEmpty [("action", "test")] "ts"
      "\"a\"").toOption.map (fun r => r.2) = some (.pyStr "\"a\"") ∧
    (post clsWithSecret envEmpty (some "abc") (some "secret") (some "test") "2"
      (some "http://monitis.com/api") [] false "ts" "\"a\"").toOption.map
        (fun r => r.2) = some (.pyJson (.str "a")) ∧
    PyVal.pyStr "\"a\"" ≠ PyVal.pyJson (.str "a") := by
  refine ⟨rfl, rfl, ?_⟩
  intro hcon
  exact PyVal.noConfusion hcon

/-- Witness for C1 at a concrete instance and call. -/
theorem C1_facade_post_witness :
    KeysNodup [("action", "test")] ∧
    dlookup "action" [("action", "test")] = some "test" ∧
    resolve_secretkey clsWithSecret envEmpty = .ok "ambient" ∧
    Monitis.post inst0 clsWithSecret envEmpty [("action", "test")] "ts" "{}" =
      .ok (⟨inst0.url, dinsert "checksum"
        (checksumCoreMeth inst0.secretkey (dinsert "timestamp" "ts"
          (dinsert "version" inst0.version
            (dinsert "apikey" inst0.apikey [("action", "test")]))))
        (dinsert "timestamp" "ts" (dinsert "version" inst0.version
          (dinsert "apikey" inst0.apikey [("action", "test")])))⟩, .pyStr "{}") :=
  ⟨by unfold KeysNodup; decide, rfl, rfl,
    (C1_facade_post inst0 clsWithSecret envEmpty [("action", "test")] "ts" "{}"
      "test" "ambient" (by unfold KeysNodup; decide) rfl rfl (by decide)
      (by decide) (by decide) (by decide) rfl).1⟩

/-! ### `validate_kwargs` loop lemmas (claim C6) -/

theorem dupdate_cons (a b : String) (t : PyDict) (d : PyDict) :
    dupdate d ((a, b) :: t) = dupdate (dinsert a b d) t := rfl

theorem dlookup_dupdate {other : PyDict} (hnd : KeysNodup other) :
    ∀ (d : PyDict) (k : String),
    dlookup k (dupdate d other) = (dlookup k other <|> dlookup k d) := by
  induction other with
  | nil =>
      intro d k
      simp [dupdate, dlookup]
  | cons p t ih =>
      obtain ⟨a, b⟩ := p
      intro d k
      have hnd' : KeysNodup t := by
        unfold KeysNodup at hnd ⊢
        simp only [List.map_cons, List.nodup_cons] at hnd
        exact hnd.2
      have hanot : dlookup a t = none := by
        apply dlookup_of_keysNodup_not_mem
        intro q hq hqa
        unfold KeysNodup at hnd
        simp only [List.map_cons, List.nodup_cons] at hnd
        exact hnd.1 (List.mem_map.mpr ⟨q, hq, hqa⟩)
      rw [dupdate_cons, ih hnd']
      by_cases hka : k = a
      · subst hka
        rw [hanot, dlookup_dinsert_self, dlookup_cons, if_pos rfl]
        rfl
      · rw [dlookup_dinsert_ne (fun hh => hka hh.symm), dlookup_cons,
          if_neg (fun hh => hka hh.symm)]

theorem reqLoop_preserve : ∀ {ps : List (String × String)} {kw acc acc' kw' : PyDict},
    reqLoop ps kw acc = .ok (acc', kw') →
    ∀ k, (∀ p ∈ ps, k ≠ p.1 ∧ k ≠ p.2) →
    dlookup k acc' = dlookup k acc ∧ dlookup k kw' = dlookup k kw := by
  intro ps
  induction ps with
  | nil =>
      intro kw acc acc' kw' h k _
      cases h
      exact ⟨rfl, rfl⟩
  | cons p rest ih =>
      obtain ⟨lc, cc⟩ := p
      intro kw acc acc' kw' h k hk
      have hklc : k ≠ lc := (hk (lc, cc) (by simp)).1
      have hkcc : k ≠ cc := (hk (lc, cc) (by simp)).2
      have hkrest : ∀ p ∈ rest, k ≠ p.1 ∧ k ≠ p.2 := fun p hp => hk p (by simp [hp])
      cases hl : dlookup lc kw with
      | some v =>
          simp only [reqLoop, hl] at h
          obtain ⟨h1, h2⟩ := ih h k hkrest
          rw [h1, h2, dlookup_dinsert_ne (Ne.symm hkcc),
            dlookup_derase_ne (Ne.symm hklc)]
          exact ⟨rfl, rfl⟩
      | none =>
          cases hc : dlookup cc kw with
          | some v =>
              simp only [reqLoop, hl, hc] at h
              obtain ⟨h1, h2⟩ := ih h k hkrest
              rw [h1, h2, dlookup_dinsert_ne (Ne.symm hkcc),
                dlookup_derase_ne (Ne.symm hkcc)]
              exact ⟨rfl, rfl⟩
          | none =>
              simp only [reqLoop, hl, hc] at h
              exact Except.noConfusion h

theorem optLoop_preserve : ∀ {ps : List (String × String)} {kw acc : PyDict}
    (k : String), (∀ p ∈ ps, k ≠ p.1 ∧ k ≠ p.2) →
    dlookup k (optLoop ps kw acc).1 = dlookup k acc ∧
    dlookup k (optLoop ps kw acc).2 = dlookup k kw := by
  intro ps
  induction ps with
  | nil =>
      intro kw acc k _
      exact ⟨rfl, rfl⟩
  | cons p rest ih =>
      obtain ⟨lc, cc⟩ := p
      intro kw acc k hk
      have hklc : k ≠ lc := (hk (lc, cc) (by simp)).1
      have hkcc : k ≠ cc := (hk (lc, cc) (by simp)).2
      have hkrest : ∀ p ∈ rest, k ≠ p.1 ∧ k ≠ p.2 := fun p hp => hk p (by simp [hp])
      cases hl : dlookup lc kw with
      | some v =>
          simp only [optLoop, hl]
          obtain ⟨h1, h2⟩ := ih k hkrest
          rw [h1, h2, dlookup_dinsert_ne (Ne.symm hkcc),
            dlookup_derase_ne (Ne.symm hklc)]
          exact ⟨rfl, rfl⟩
      | none =>
          cases hc : dlookup cc kw with
          | some v =>
              simp only [optLoop, hl, hc]
              obtain ⟨h1, h2⟩ := ih k hkrest
              rw [h1, h2, dlookup_dinsert_ne (Ne.symm hkcc),
                dlookup_derase_ne (Ne.symm hkcc)]
              exact ⟨rfl, rfl⟩
          | none =>
              simp only [optLoop, hl, hc]
              exact ih k hkrest

theorem pairsDisjoint_tail {p : String × String} {rest : List (String × String)}
    (h : PairsDisjoint (p :: rest)) : PairsDisjoint rest := by
  unfold PairsDisjoint at *
  exact (List.pairwise_cons.mp h).2

theorem pairsDisjoint_head {p : String × String} {rest : List (String × String)}
    (h : PairsDisjoint (p :: rest)) :
    ∀ q ∈ rest, p.1 ≠ q.1 ∧ p.1 ≠ q.2 ∧ p.2 ≠ q.1 ∧ p.2 ≠ q.2 := by
  unfold PairsDisjoint at h
  exact (List.pairwise_cons.mp h).1

theorem reqLoop_kw_nodup : ∀ {ps : List (String × String)} {kw acc acc' kw' : PyDict},
    reqLoop ps kw acc = .ok (acc', kw') → KeysNodup kw → KeysNodup kw' := by
  intro ps
  induction ps with
  | nil =>
      intro kw acc acc' kw' h hnd
      cases h
      exact hnd
  | cons p rest ih =>
      obtain ⟨lc, cc⟩ := p
      intro kw acc acc' kw' h hnd
      cases hl : dlookup lc kw with
      | some v =>
          simp only [reqLoop, hl] at h
          exact ih h (keysNodup_derase _ hnd)
      | none =>
          cases hc : dlookup cc kw with
          | some v =>
              simp only [reqLoop, hl, hc] at h
              exact ih h (keysNodup_derase _ hnd)
          | none =>
              simp only [reqLoop, hl, hc] at h
              exact Except.noConfusion h

theorem optLoop_kw_nodup : ∀ {ps : List (String × String)} {kw acc : PyDict},
    KeysNodup kw → KeysNodup (optLoop ps kw acc).2 := by
  intro ps
  induction ps with
  | nil =>
      intro kw acc hnd
      exact hnd
  | cons p rest ih =>
      obtain ⟨lc, cc⟩ := p
      intro kw acc hnd
      cases hl : dlookup lc kw with
      | some v =>
          simp only [optLoop, hl]
          exact ih (keysNodup_derase _ hnd)
      | none =>
          cases hc : dlookup cc kw with
          | some v =>
              simp only [optLoop, hl, hc]
              exact ih (keysNodup_derase _ hnd)
          | none =>
              simp only [optLoop, hl, hc]
              exact ih hnd

theorem reqLoop_found : ∀ {ps : List (String × String)} {kw acc acc' kw' : PyDict},
    reqLoop ps kw acc = .ok (acc', kw') → PairsDisjoint ps →
    ∀ lc cc, (lc, cc) ∈ ps →
    (dlookup cc kw' <|> dlookup cc acc') = (dlookup cc kw <|> dlookup lc kw) := by
  intro ps
  induction ps with
  | nil =>
      intro kw acc acc' kw' _ _ lc cc hmem
      simp at hmem
  | cons p rest ih =>
      obtain ⟨l0, c0⟩ := p
      intro kw acc acc' kw' h hd lc cc hmem
      rcases List.mem_cons.mp hmem with heq | hmem'
      · obtain ⟨rfl, rfl⟩ := Prod.mk.injEq .. ▸ heq
        -- the pair being looked up is the head pair
        have hccrest : ∀ p ∈ rest, cc ≠ p.1 ∧ cc ≠ p.2 := by
          intro q hq
          have := pairsDisjoint_head hd q hq
          exact ⟨this.2.2.1, this.2.2.2⟩
        cases hl : dlookup lc kw with
        | some v =>
            simp only [reqLoop, hl] at h
            obtain ⟨h1, h2⟩ := reqLoop_preserve h cc hccrest
            rw [h1, h2, dlookup_dinsert_self]
            by_cases hlcc : lc = cc
            · subst hlcc
              rw [dlookup_derase_self, hl]
              rfl
            · rw [dlookup_derase_ne hlcc]
        | none =>
            cases hc : dlookup cc kw with
            | some v =>
                simp only [reqLoop, hl, hc] at h
                obtain ⟨h1, h2⟩ := reqLoop_preserve h cc hccrest
                rw [h1, h2, dlookup_dinsert_self, dlookup_derase_self]
                rfl
            | none =>
                simp only [reqLoop, hl, hc] at h
                exact Except.noConfusion h
      · -- the pair being looked up is processed later
        have hdh := pairsDisjoint_head hd (lc, cc) hmem'
        have hlcl0 : lc ≠ l0 := fun hh => hdh.1 hh.symm
        have hccl0 : cc ≠ l0 := fun hh => hdh.2.1 hh.symm
        have hlcc0 : lc ≠ c0 := fun hh => hdh.2.2.1 hh.symm
        have hccc0 : cc ≠ c0 := fun hh => hdh.2.2.2 hh.symm
        cases hl : dlookup l0 kw with
        | some v =>
            simp only [reqLoop, hl] at h
            have := ih h (pairsDisjoint_tail hd) lc cc hmem'
            rw [this, dlookup_derase_ne (Ne.symm hccl0),
              dlookup_derase_ne (Ne.symm hlcl0)]
        | none =>
            cases hc : dlookup c0 kw with
            | some v =>
                simp only [reqLoop, hl, hc] at h
                have := ih h (pairsDisjoint_tail hd) lc cc hmem'
                rw [this, dlookup_derase_ne (Ne.symm hccc0),
                  dlookup_derase_ne (Ne.symm hlcc0)]
            | none =>
                simp only [reqLoop, hl, hc] at h
                exact Except.noConfusion h

theorem optLoop_found : ∀ {ps : List (String × String)} {kw acc : PyDict},
    PairsDisjoint ps →
    ∀ lc cc, (lc, cc) ∈ ps → dlookup cc acc = none →
    (dlookup cc (optLoop ps kw acc).2 <|> dlookup cc (optLoop ps kw acc).1) =
      (dlookup cc kw <|> dlookup lc kw) := by
  intro ps
  induction ps with
  | nil =>
      intro kw acc _ lc cc hmem _
      simp at hmem
  | cons p rest ih =>
      obtain ⟨l0, c0⟩ := p
      intro kw acc hd lc cc hmem hacc
      rcases List.mem_cons.mp hmem with heq | hmem'
      · obtain ⟨rfl, rfl⟩ := Prod.mk.injEq .. ▸ heq
        have hccrest : ∀ p ∈ rest, cc ≠ p.1 ∧ cc ≠ p.2 := by
          intro q hq
          have := pairsDisjoint_head hd q hq
          exact ⟨this.2.2.1, this.2.2.2⟩
        cases hl : dlookup lc kw with
        | some v =>
            simp only [optLoop, hl]
            obtain ⟨h1, h2⟩ := optLoop_preserve cc hccrest
            rw [h1, h2, dlookup_dinsert_self]
            by_cases hlcc : lc = cc
            · subst hlcc
              rw [dlookup_derase_self, hl]
              rfl
            · rw [dlookup_derase_ne hlcc]
        | none =>
            cases hc : dlookup cc kw with
            | some v =>
                simp only [optLoop, hl, hc]
                obtain ⟨h1, h2⟩ := optLoop_preserve cc hccrest
                rw [h1, h2, dlookup_dinsert_self, dlookup_derase_self]
                rfl
            | none =>
                simp only [optLoop, hl, hc]
                obtain ⟨h1, h2⟩ := optLoop_preserve cc hccrest
                rw [h1, h2, hacc, hc]
      · have hdh := pairsDisjoint_head hd (lc, cc) hmem'
        have hlcl0 : lc ≠ l0 := fun hh => hdh.1 hh.symm
        have hccl0 : cc ≠ l0 := fun hh => hdh.2.1 hh.symm
        have hlcc0 : lc ≠ c0 := fun hh => hdh.2.2.1 hh.symm
        have hccc0 : cc ≠ c0 := fun hh => hdh.2.2.2 hh.symm
        cases hl : dlookup l0 kw with
        | some v =>
            simp only [optLoop, hl]
            have hacc' : dlookup cc (dinsert c0 v acc) = none := by
              rwa [dlookup_dinsert_ne (Ne.symm hccc0)]
            have := @ih (derase l0 kw) (dinsert c0 v acc)
              (pairsDisjoint_tail hd) lc cc hmem' hacc'
            rw [this, dlookup_derase_ne (Ne.symm hccl0),
              dlookup_derase_ne (Ne.symm hlcl0)]
        | none =>
            cases hc : dlookup c0 kw with
            | some v =>
                simp only [optLoop, hl, hc]
                have hacc' : dlookup cc (dinsert c0 v acc) = none := by
                  rwa [dlookup_dinsert_ne (Ne.symm hccc0)]
                have := @ih (derase c0 kw) (dinsert c0 v acc)
                  (pairsDisjoint_tail hd) lc cc hmem' hacc'
                rw [this, dlookup_derase_ne (Ne.symm hccc0),
                  dlookup_derase_ne (Ne.symm hlcc0)]
            | none =>
                simp only [optLoop, hl, hc]
                exact ih (pairsDisjoint_tail hd) lc cc hmem' hacc

theorem reqLoop_missing : ∀ {ps : List (String × String)} {kw acc : PyDict},
    PairsDisjoint ps →
    ∀ lc cc, (lc, cc) ∈ ps → dlookup lc kw = none → dlookup cc kw = none →
    ∃ lc' cc', (lc', cc') ∈ ps ∧ dlookup lc' kw = none ∧ dlookup cc' kw = none ∧
      reqLoop ps kw acc = .error ⟨lc' ++ " is required"⟩ := by
  intro ps
  induction ps with
  | nil =>
      intro kw acc _ lc cc hmem _ _
      simp at hmem
  | cons p rest ih =>
      obtain ⟨l0, c0⟩ := p
      intro kw acc hd lc cc hmem hlc hcc
      cases hl : dlookup l0 kw with
      | some v =>
          -- the head pair is satisfied; our missing pair is in the tail
          have hmem' : (lc, cc) ∈ rest := by
            rcases List.mem_cons.mp hmem with heq | hmem'
            · obtain ⟨rfl, rfl⟩ := Prod.mk.injEq .. ▸ heq
              rw [hlc] at hl
              exact Option.noConfusion hl
            · exact hmem'
          have hdh := pairsDisjoint_head hd (lc, cc) hmem'
          obtain ⟨lc', cc', hmem'', hlc', hcc', hres⟩ :=
            ih (pairsDisjoint_tail hd) lc cc hmem'
              (by rwa [dlookup_derase_ne (fun hh => hdh.1 hh)])
              (by rwa [dlookup_derase_ne (fun hh => hdh.2.1 hh)])
          have hdh' := pairsDisjoint_head hd (lc', cc') hmem''
          refine ⟨lc', cc', List.mem_cons_of_mem _ hmem'', ?_, ?_, ?_⟩
          · rwa [dlookup_derase_ne (fun hh => hdh'.1 hh)] at hlc'
          · rwa [dlookup_derase_ne (fun hh => hdh'.2.1 hh)] at hcc'
          · simp only [reqLoop, hl]
            exact hres
      | none =>
          cases hc : dlookup c0 kw with
          | some v =>
              have hmem' : (lc, cc) ∈ rest := by
                rcases List.mem_cons.mp hmem with heq | hmem'
                · obtain ⟨rfl, rfl⟩ := Prod.mk.injEq .. ▸ heq
                  rw [hcc] at hc
                  exact Option.noConfusion hc
                · exact hmem'
              have hdh := pairsDisjoint_head hd (lc, cc) hmem'
              obtain ⟨lc', cc', hmem'', hlc', hcc', hres⟩ :=
                ih (pairsDisjoint_tail hd) lc cc hmem'
                  (by rwa [dlookup_derase_ne (fun hh => hdh.2.2.1 hh)])
                  (by rwa [dlookup_derase_ne (fun hh => hdh.2.2.2 hh)])
              have hdh' := pairsDisjoint_head hd (lc', cc') hmem''
              refine ⟨lc', cc', List.mem_cons_of_mem _ hmem'', ?_, ?_, ?_⟩
              · rwa [dlookup_derase_ne (fun hh => hdh'.2.2.1 hh)] at hlc'
              · rwa [dlookup_derase_ne (fun hh => hdh'.2.2.2 hh)] at hcc'
              · simp only [reqLoop, hl, hc]
                exact hres
          | none =>
              refine ⟨l0, c0, by simp, hl, hc, ?_⟩
              simp only [reqLoop, hl, hc]

/-- C6: for every required-name specification, optional-name specification
(name spellings pairwise distinct, as with real API identifier lists) and
caller-supplied keyword arguments, a successful `validate_kwargs` returns a
mapping in which every required provider-format name is present and carries
the value supplied under the provider spelling if present, else the
underscore spelling; every optional name carries the same either-spelling
value; and every other caller-supplied argument passes through unchanged.
If some required name is supplied under neither spelling, the call fails
with a `MonitisError` naming a missing required name in underscore form.
Concretely, required `[agentId]`, optional `[loadTests]` with
`agent_id = "5"` yields `{agentId: "5"}`, and with no arguments fails with
"agent_id is required". -/
theorem C6_validate_kwargs :
    (∀ (required optional : List String) (kwargs res : PyDict),
      PairsDisjoint (pairsOf required ++ pairsOf optional) →
      KeysNodup kwargs →
      validate_kwargs required optional kwargs = .ok res →
      (∀ w ∈ required,
        dlookup w res =
          (dlookup w kwargs <|> dlookup (camel2under w) kwargs) ∧
        (dlookup w res).isSome = true) ∧
      (∀ w ∈ optional,
        dlookup w res =
          (dlookup w kwargs <|> dlookup (camel2under w) kwargs)) ∧
      (∀ k, (∀ w ∈ required ++ optional, k ≠ w ∧ k ≠ camel2under w) →
        dlookup k res = dlookup k kwargs)) ∧
    (∀ (required optional : List String) (kwargs : PyDict),
      PairsDisjoint (pairsOf required) →
      (∃ w ∈ required, dlookup w kwargs = none ∧
        dlookup (camel2under w) kwargs = none) →
      ∃ w ∈ required, dlookup w kwargs = none ∧
        dlookup (camel2under w) kwargs = none ∧
        validate_kwargs required optional kwargs =
          .error ⟨camel2under w ++ " is required"⟩) ∧
    validate_kwargs ["agentId"] ["loadTests"] [("agent_id", "5")] =
      .ok [("agentId", "5")] ∧
    validate_kwargs ["agentId"] ["loadTests"] [] =
      .error ⟨"agent_id is required"⟩ := by
  refine ⟨?_, ?_, by rfl, by rfl⟩
  · intro required optional kwargs res hdisj hknd hvk
    unfold PairsDisjoint at hdisj
    rw [List.pairwise_append] at hdisj
    obtain ⟨hpr, hpo, hcross⟩ := hdisj
    simp only [validate_kwargs] at hvk
    cases hre : reqLoop (List.map (fun w => (camel2under w, w)) required)
        kwargs [] with
    | error e =>
        simp only [hre] at hvk
        exact Except.noConfusion hvk
    | ok p =>
        obtain ⟨acc, kw⟩ := p
        simp only [hre] at hvk
        cases hopt : optLoop (List.map (fun w => (camel2under w, w)) optional)
            kw acc with
        | mk acc2 kw2 =>
            simp only [hopt] at hvk
            injection hvk with hres
            subst hres
            have hkwnd : KeysNodup kw := reqLoop_kw_nodup hre hknd
            have hkw2nd : KeysNodup kw2 := by
              have := @optLoop_kw_nodup
                (List.map (fun w => (camel2under w, w)) optional) kw acc hkwnd
              rwa [hopt] at this
            refine ⟨?_, ?_, ?_⟩
            · -- required names
              intro w hw
              have hmem : (camel2under w, w) ∈
                  List.map (fun w => (camel2under w, w)) required :=
                List.mem_map_of_mem _ hw
              have havoidopt : ∀ p ∈
                  List.map (fun w => (camel2under w, w)) optional,
                  w ≠ p.1 ∧ w ≠ p.2 := by
                intro q hq
                have := hcross _ hmem q hq
                exact ⟨this.2.2.1, this.2.2.2⟩
              have hop := @optLoop_preserve
                (List.map (fun w => (camel2under w, w)) optional) kw acc
                w havoidopt
              rw [hopt] at hop
              have hfound := reqLoop_found hre hpr (camel2under w) w hmem
              have hmain : dlookup w (dupdate acc2 kw2) =
                  (dlookup w kwargs <|> dlookup (camel2under w) kwargs) := by
                rw [dlookup_dupdate hkw2nd, hop.1, hop.2, hfound]
              refine ⟨hmain, ?_⟩
              rw [hmain]
              cases hx : dlookup w kwargs with
              | some v => rfl
              | none =>
                  cases hy : dlookup (camel2under w) kwargs with
                  | some v => rfl
                  | none =>
                      obtain ⟨lc', cc', _, _, _, hbad⟩ :=
                        @reqLoop_missing
                          (List.map (fun w => (camel2under w, w)) required)
                          kwargs [] hpr (camel2under w) w hmem hy hx
                      rw [hre] at hbad
                      exact Except.noConfusion hbad
            · -- optional names
              intro w hw
              have hmem : (camel2under w, w) ∈
                  List.map (fun w => (camel2under w, w)) optional :=
                List.mem_map_of_mem _ hw
              have havoidreq : ∀ p ∈
                  List.map (fun w => (camel2under w, w)) required,
                  w ≠ p.1 ∧ w ≠ p.2 := by
                intro q hq
                have h3 : q.1 ≠ camel2under w ∧ q.1 ≠ w ∧
                    q.2 ≠ camel2under w ∧ q.2 ≠ w := hcross q hq _ hmem
                exact ⟨Ne.symm h3.2.1, Ne.symm h3.2.2.2⟩
              have havoidreq' : ∀ p ∈
                  List.map (fun w => (camel2under w, w)) required,
                  camel2under w ≠ p.1 ∧ camel2under w ≠ p.2 := by
                intro q hq
                have h3 : q.1 ≠ camel2under w ∧ q.1 ≠ w ∧
                    q.2 ≠ camel2under w ∧ q.2 ≠ w := hcross q hq _ hmem
                exact ⟨Ne.symm h3.1, Ne.symm h3.2.2.1⟩
              have hpre := reqLoop_preserve hre w havoidreq
              have hpre' := reqLoop_preserve hre (camel2under w) havoidreq'
              have haccnone : dlookup w acc = none := hpre.1
              have hfound := @optLoop_found
                (List.map (fun w => (camel2under w, w)) optional) kw acc hpo
                (camel2under w) w hmem haccnone
              rw [hopt] at hfound
              rw [dlookup_dupdate hkw2nd, hfound, hpre.2, hpre'.2]
            · -- passthrough
              intro k hk
              have havoidreq : ∀ p ∈
                  List.map (fun w => (camel2under w, w)) required,
                  k ≠ p.1 ∧ k ≠ p.2 := by
                intro q hq
                obtain ⟨w, hw, hqe⟩ := List.mem_map.mp hq
                obtain ⟨h1, h2⟩ := Prod.mk.injEq .. ▸ hqe
                have := hk w (List.mem_append_left _ hw)
                exact ⟨h1 ▸ this.2, h2 ▸ this.1⟩
              have havoidopt : ∀ p ∈
                  List.map (fun w => (camel2under w, w)) optional,
                  k ≠ p.1 ∧ k ≠ p.2 := by
                intro q hq
                obtain ⟨w, hw, hqe⟩ := List.mem_map.mp hq
                obtain ⟨h1, h2⟩ := Prod.mk.injEq .. ▸ hqe
                have := hk w (List.mem_append_right _ hw)
                exact ⟨h1 ▸ this.2, h2 ▸ this.1⟩
              have hpre := reqLoop_preserve hre k havoidreq
              have hop := @optLoop_preserve
                (List.map (fun w => (camel2under w, w)) optional) kw acc
                k havoidopt
              rw [hopt] at hop
              rw [dlookup_dupdate hkw2nd, hop.1, hop.2, hpre.1, hpre.2]
              show (dlookup k kwargs <|> dlookup k ([] : PyDict)) =
                dlookup k kwargs
              cases dlookup k kwargs <;> rfl
  · intro required optional kwargs hpr hmissing
    obtain ⟨w, hw, hcc, hlc⟩ := hmissing
    obtain ⟨lc', cc', hmem', hlc', hcc', hbad⟩ :=
      @reqLoop_missing (List.map (fun w => (camel2under w, w)) required)
        kwargs [] hpr (camel2under w) w
        (List.mem_map_of_mem _ hw) hlc hcc
    obtain ⟨w', hw', hqe⟩ := List.mem_map.mp hmem'
    obtain ⟨h1, h2⟩ := Prod.mk.injEq .. ▸ hqe
    subst h1
    subst h2
    refine ⟨w', hw', hcc', hlc', ?_⟩
    simp only [validate_kwargs, hbad]

/-- Witness for C6 at the spec's concrete instance: required `[agentId]`,
optional `[loadTests]`, arguments `{agent_id: "5"}`. -/
theorem C6_validate_kwargs_witness :
    dlookup "agentId" [("agentId", "5")] =
      (dlookup "agentId" [("agent_id", "5")]
        <|> dlookup (camel2under "agentId") [("agent_id", "5")]) :=
  ((C6_validate_kwargs.1 ["agentId"] ["loadTests"] [("agent_id", "5")]
      [("agentId", "5")]
      (by unfold PairsDisjoint; decide)
      (by unfold KeysNodup; decide)
      (by rfl)).1 "agentId" (by decide)).1
